import Mathlib

/-
Verification of the XBRL-to-RDF translator (`xbrl_to_rdf.py`).

The development shallowly embeds the `XBRLToRDF` class.  The translator walks
a loaded XBRL model object (concepts, contexts, facts, relationship sets,
taxonomy metadata) and emits RDF triples into an `rdflib.Graph`.

Modelling conventions:
  * `Node` covers the rdflib term kinds the translator constructs: `URIRef`
    (held as its full string, built by namespace-string concatenation exactly
    as `Namespace.__getitem__` does), `BNode` (minted from a counter threaded
    through the run), plain `Literal`, and datatyped `Literal`.
  * An rdflib `Graph` stores a *set* of triples; we model it as a duplicate
    free list built by `Graph.add`, which preserves insertion order and drops
    triples already present.
  * Python attribute probing (`hasattr(x, 'f') and x.f`) is modelled with
    `Option` fields: `none` stands for "attribute absent or falsy `None`";
    where the code additionally tests truthiness of a string (Python's empty
    string is falsy) the emptiness test is spelled out.
  * `uuid.uuid4()` draws are modelled as an ambient stream `uuid : Nat → String`
    consumed left to right by one counter, and `datetime.now()` as an ambient
    string `now`; both are explicit inputs of the embedded translator.
  * Each `translate_*` helper wraps its body in `try/except`.  Exceptions
    raised while iterating a collection are modelled by `Except.error` items
    in the corresponding list: reaching one aborts the pass (items after it
    are not processed) and control moves to the `except` clause, which for
    the concepts/contexts/facts/relationships passes `print`s a message (the
    `printed` field of the state) and for the taxonomy pass appends the
    message to `self.errors` (the `errors` field).
-/

namespace XbrlRdf

/-- RDF term constructed by the translator: a URI reference (full string), a
blank node (minted fresh from a counter), a plain literal, or a datatyped
literal. -/
inductive Node where
  | uri (val : String)
  | bnode (id : Nat)
  | litStr (val : String)
  | litTyped (val : String) (dtype : String)
  deriving DecidableEq, Repr

/-- One RDF triple (subject, predicate, object), as passed to `g.add`. -/
structure Triple where
  s : Node
  p : Node
  o : Node
  deriving DecidableEq, Repr

/-- An rdflib graph: a set of triples, modelled as a duplicate-free list in
insertion order. -/
abbrev Graph := List Triple

/-- `g.add(t)`: rdflib stores triples as a set, so adding an already present
triple leaves the graph unchanged. -/
def Graph.add (g : Graph) (t : Triple) : Graph :=
  if t ∈ g then g else g ++ [t]

/-- A run of consecutive `g.add` calls. -/
def Graph.addAll (g : Graph) (ts : List Triple) : Graph :=
  ts.foldl Graph.add g

theorem Graph.mem_add {g : Graph} {t a : Triple} :
    a ∈ g.add t ↔ a ∈ g ∨ a = t := by
  unfold Graph.add
  split
  · next h =>
    constructor
    · exact Or.inl
    · rintro (ha | rfl)
      · exact ha
      · exact h
  · simp [List.mem_append]

theorem Graph.mem_addAll {g : Graph} {ts : List Triple} {a : Triple} :
    a ∈ g.addAll ts ↔ a ∈ g ∨ a ∈ ts := by
  induction ts generalizing g with
  | nil => simp [Graph.addAll]
  | cons t ts ih =>
    show a ∈ Graph.addAll (g.add t) ts ↔ _
    rw [ih, Graph.mem_add]
    simp [or_assoc]

theorem Graph.addAll_append (g : Graph) (ts us : List Triple) :
    g.addAll (ts ++ us) = (g.addAll ts).addAll us := by
  simp [Graph.addAll, List.foldl_append]

theorem Graph.exists_add_eq (g : Graph) (t : Triple) :
    ∃ l, g.add t = g ++ l := by
  unfold Graph.add
  split
  · exact ⟨[], by simp⟩
  · exact ⟨[t], rfl⟩

theorem Graph.exists_addAll_eq (g : Graph) (ts : List Triple) :
    ∃ l, g.addAll ts = g ++ l := by
  induction ts generalizing g with
  | nil => exact ⟨[], by simp [Graph.addAll]⟩
  | cons t ts ih =>
    obtain ⟨l₀, h₀⟩ := Graph.exists_add_eq g t
    obtain ⟨l₁, h₁⟩ := ih (g.add t)
    exact ⟨l₀ ++ l₁, by
      show Graph.addAll (g.add t) ts = _
      rw [h₁, h₀, List.append_assoc]⟩

theorem Graph.nodup_add {g : Graph} {t : Triple} (h : g.Nodup) :
    (g.add t).Nodup := by
  unfold Graph.add
  split
  · exact h
  · next hn =>
    simp only [List.nodup_append, List.nodup_cons, List.nodup_nil]
    exact ⟨h, ⟨by simp, trivial⟩, by
      intro a ha hb
      simp only [List.mem_singleton] at hb
      exact hn (hb ▸ ha)⟩

theorem Graph.nodup_addAll {g : Graph} {ts : List Triple} (h : g.Nodup) :
    (g.addAll ts).Nodup := by
  induction ts generalizing g with
  | nil => exact h
  | cons t ts ih => exact ih (Graph.nodup_add h)

/- Namespace strings, exactly as defined and bound in `xbrl_to_rdf`. -/

/-- Namespace `http://www.xbrl.org/2003/instance#` (both `XBRL` and `XBRLI`
in the source denote this same string). -/
def xbrlNS : String := "http://www.xbrl.org/2003/instance#"

/-- Namespace `http://xbrl.org/2005/xbrldt#` (bound, never used for terms). -/
def xbrldtNS : String := "http://xbrl.org/2005/xbrldt#"

/-- Namespace `http://www.w3.org/1999/xlink#` (bound, never used for terms). -/
def xlinkNS : String := "http://www.w3.org/1999/xlink#"

/-- Namespace `http://example.com/company/`. -/
def companyNS : String := "http://example.com/company/"

/-- Namespace `http://example.com/concepts/`. -/
def conceptNS : String := "http://example.com/concepts/"

/-- Namespace `http://example.com/facts/`. -/
def factNS : String := "http://example.com/facts/"

/-- Namespace `http://example.com/contexts/`. -/
def contextNS : String := "http://example.com/contexts/"

/-- Namespace `http://example.com/relationships/`. -/
def relNS : String := "http://example.com/relationships/"

/-- Namespace `http://example.com/taxonomy/`. -/
def taxonomyNS : String := "http://example.com/taxonomy/"

/-- The rdflib `RDF` namespace. -/
def rdfNS : String := "http://www.w3.org/1999/02/22-rdf-syntax-ns#"

/-- The rdflib `RDFS` namespace. -/
def rdfsNS : String := "http://www.w3.org/2000/01/rdf-schema#"

/-- The rdflib `XSD` namespace. -/
def xsdNS : String := "http://www.w3.org/2001/XMLSchema#"

/-- The rdflib `DCTERMS` namespace. -/
def dctermsNS : String := "http://purl.org/dc/terms/"

/-- `Namespace.__getitem__` / attribute access: URI reference built by string
concatenation of the namespace and the term name. -/
def nsGet (ns name : String) : Node := Node.uri (ns ++ name)

/-- `RDF.type`. -/
def rdf_type : Node := nsGet rdfNS "type"

/-- `RDFS.label`. -/
def rdfs_label : Node := nsGet rdfsNS "label"

/-- `DCTERMS.created`. -/
def dcterms_created : Node := nsGet dctermsNS "created"

/-- `XSD.dateTime` datatype URI string. -/
def xsd_dateTime : String := xsdNS ++ "dateTime"

/-- `XSD.boolean` datatype URI string. -/
def xsd_boolean : String := xsdNS ++ "boolean"

/-- `XSD.decimal` datatype URI string. -/
def xsd_decimal : String := xsdNS ++ "decimal"

/-- `doc_uri = COMPANY["document"]`, the root subject of every translation. -/
def doc_uri : Node := nsGet companyNS "document"

/-- `TAXONOMY["main"]`, the taxonomy metadata subject. -/
def taxonomyMainUri : Node := nsGet taxonomyNS "main"

/- Model objects: the attributes of the loaded XBRL model that the translator
reads (collaborator contract of §6 of the spec; attribute shapes follow the
accesses in `xbrl_to_rdf.py`). -/

/-- A qualified name: namespace URI plus local name.  The translator only ever
reads `localName`; `namespaceURI` is carried so that namespace-collision
statements can be expressed. -/
structure QName where
  namespaceURI : String
  localName : String
  deriving DecidableEq, Repr

/-- `concept.type`: a type object whose `qname` is probed for truthiness
before its `localName` is read. -/
structure ConceptType where
  qname : Option QName
  deriving DecidableEq, Repr

/-- A taxonomy concept, with exactly the attributes `translate_concepts`
reads.  `none` models "attribute absent or falsy". -/
structure Concept where
  qname : QName
  label : Option String
  type : Option ConceptType
  periodType : Option String
  balance : Option String
  isAbstract : Option Bool
  substitutionGroup : Option QName
  deriving DecidableEq, Repr

/-- A dimensional qualifier value: an explicit `member` (probed for presence
and truthiness, then `member.qname.localName` is read) or a `typedMember`
(probed for presence only, then stringified). -/
structure DimValue where
  member : Option QName
  typedMember : Option String
  deriving DecidableEq, Repr

/-- A context object, with the attributes `translate_contexts` reads.
`entityIdentifier` is doubly optional: the outer `Option` is the `hasattr`
probe, the inner one the truthiness test of the `(scheme, identifier)` pair.
`hasPeriod` models `hasattr(context, 'period')`; the period flags and
datetimes are read unconditionally inside that branch. -/
structure Context where
  entityIdentifier : Option (Option (String × String))
  hasPeriod : Bool
  isInstantPeriod : Bool
  isStartEndPeriod : Bool
  instantDatetime : String
  startDatetime : String
  endDatetime : String
  qnameDims : Option (List (QName × DimValue))
  deriving DecidableEq, Repr

/-- A footnote on a fact; `text` is probed with `hasattr`. -/
structure Footnote where
  text : Option String
  deriving DecidableEq, Repr

/-- `fact.unit`: its `measures` attribute is a list of measure lists; each
measure contributes a literal only when it has a `localName`. -/
structure FactUnit where
  measures : Option (List (List (Option String)))
  deriving DecidableEq, Repr

/-- A fact object, with the attributes `translate_facts` reads.  `concept`
stands for `fact.concept.qname` when `fact.concept` is present and truthy;
`context` for `fact.context.id`; `value`, `precision`, `decimals` are string
renderings, `none` exactly when the attribute is absent or `None`. -/
structure Fact where
  concept : Option QName
  context : Option String
  value : Option String
  isNumeric : Bool
  unit : Option FactUnit
  precision : Option String
  decimals : Option String
  footnotes : Option (List Footnote)
  deriving DecidableEq, Repr

/-- A relationship arc, with the attributes `translate_relationships` reads.
`fromModelObject`/`toModelObject` stand for the probed objects' `qname`s;
`order` and `weight` are present unless `None`; `preferredLabel` is probed
for truthiness. -/
structure Rel where
  fromModelObject : Option QName
  toModelObject : Option QName
  order : Option String
  weight : Option String
  preferredLabel : Option String
  deriving DecidableEq, Repr

/-- A taxonomy schema entry: `schema.qname.localName` and
`schema.namespaceURI`. -/
structure TaxonomySchema where
  localName : String
  namespaceURI : String
  deriving DecidableEq, Repr

/-- A taxonomy linkbase entry: `linkbase.qname.localName` and
`linkbase.role`. -/
structure TaxonomyLinkbase where
  localName : String
  role : String
  deriving DecidableEq, Repr

/-- `model.taxonomy`, with the attributes `translate_taxonomy` probes. -/
structure TaxonomyInfo where
  entryPoint : Option String
  schemas : Option (List (Except String TaxonomySchema))
  linkbases : Option (List (Except String TaxonomyLinkbase))

/-- The loaded XBRL model as consumed by `xbrl_to_rdf`.  Iterated collections
are lists of `Except` items: an `Except.error` item stands for the iteration
raising an exception at that point. -/
structure XBRLModel where
  qnameConcepts : List (Except String Concept)
  contexts : List (Except String (String × Context))
  facts : List (Except String Fact)
  relationshipSets : Option (List (String × List (String × List (Except String Rel))))
  taxonomy : Option TaxonomyInfo

/-- Mutable state of one `xbrl_to_rdf` call: the graph under construction,
the blank-node and uuid-draw counters, `self.errors`, and the lines written
to the console by `print`. -/
structure TransState where
  g : Graph
  bnodeCtr : Nat
  uuidCtr : Nat
  errors : List String
  printed : List String

/-- The items of an `Except` list processed before the first raised
exception. -/
def oksBefore : List (Except String α) → List α
  | [] => []
  | .error _ :: _ => []
  | .ok a :: rest => a :: oksBefore rest

/- Pass 1: concepts. -/

/-- `CONCEPT[concept.qname.localName]`: the subject URI minted for a concept
(local name only; the namespace is discarded). -/
def conceptUri (c : Concept) : Node := nsGet conceptNS c.qname.localName

/-- The `g.add` calls of one iteration of the `translate_concepts` loop, in
source order. -/
def conceptTriples (c : Concept) : List Triple :=
  let u := conceptUri c
  [⟨u, rdf_type, nsGet xbrlNS "Concept"⟩,
   ⟨u, rdfs_label, Node.litStr c.qname.localName⟩]
  ++ (match c.label with
      | some s => if s = "" then [] else [⟨u, nsGet xbrlNS "standardLabel", Node.litStr s⟩]
      | none => [])
  ++ (match c.type with
      | some ty =>
        match ty.qname with
        | some q => [⟨u, nsGet xbrlNS "type", Node.litStr q.localName⟩]
        | none => []
      | none => [])
  ++ (match c.periodType with
      | some s => [⟨u, nsGet xbrlNS "periodType", Node.litStr s⟩]
      | none => [])
  ++ (match c.balance with
      | some s => if s = "" then [] else [⟨u, nsGet xbrlNS "balance", Node.litStr s⟩]
      | none => [])
  ++ (match c.isAbstract with
      | some b => [⟨u, nsGet xbrlNS "abstract", Node.litTyped (if b then "true" else "false") xsd_boolean⟩]
      | none => [])
  ++ (match c.substitutionGroup with
      | some q => [⟨u, nsGet xbrlNS "substitutionGroup", Node.litStr q.localName⟩]
      | none => [])

/-- The `translate_concepts` loop over `self.xbrl_model.qnameConcepts.values()`:
processes items until exhaustion or the first exception, which is returned. -/
def runConceptItems : Graph → List (Except String Concept) → Graph × Option String
  | g, [] => (g, none)
  | g, .error e :: _ => (g, some e)
  | g, .ok c :: rest => runConceptItems (g.addAll (conceptTriples c)) rest

/-- `translate_concepts()`: on an exception the message is printed
(`print(f"Error translating concepts: {e}")`), not appended to
`self.errors`. -/
def translate_concepts (st : TransState) (items : List (Except String Concept)) : TransState :=
  match runConceptItems st.g items with
  | (g, none) => { st with g := g }
  | (g, some e) => { st with g := g, printed := st.printed ++ ["Error translating concepts: " ++ e] }

/- Pass 2: contexts. -/

/-- `CONTEXT[context_id]`: the subject URI minted for a context. -/
def contextUri (cid : String) : Node := nsGet contextNS cid

/-- The dimensional-segment loop of `translate_contexts`, one blank node per
dimension. -/
def dimsTriples (cu : Node) : Nat → List (QName × DimValue) → List Triple
  | _, [] => []
  | b, (dq, dv) :: rest =>
    ([⟨cu, nsGet xbrlNS "segment", Node.bnode b⟩,
      ⟨Node.bnode b, rdf_type, nsGet xbrlNS "Segment"⟩,
      ⟨Node.bnode b, nsGet xbrlNS "dimension", nsGet conceptNS dq.localName⟩]
     ++ (match dv.member with
         | some mq => [⟨Node.bnode b, nsGet xbrlNS "member", nsGet conceptNS mq.localName⟩]
         | none =>
           match dv.typedMember with
           | some s => [⟨Node.bnode b, nsGet xbrlNS "typedValue", Node.litStr s⟩]
           | none => []))
    ++ dimsTriples cu (b + 1) rest

/-- Entity block of the `translate_contexts` loop body: guarded by
`hasattr(context, 'entityIdentifier')`; the identifier/scheme literals are
added only when the `(scheme, identifier)` pair is truthy. -/
def contextEntityTriples (cu : Node) (b : Nat) (ctx : Context) : List Triple × Nat :=
  match ctx.entityIdentifier with
  | some inner =>
    ([⟨cu, nsGet xbrlNS "entity", Node.bnode b⟩,
      ⟨Node.bnode b, rdf_type, nsGet xbrlNS "Entity"⟩]
     ++ (match inner with
         | some pair =>
           [⟨Node.bnode b, nsGet xbrlNS "identifier", Node.litStr pair.2⟩,
            ⟨Node.bnode b, nsGet xbrlNS "scheme", Node.litStr pair.1⟩]
         | none => []), b + 1)
  | none => ([], b)

/-- Period block of the `translate_contexts` loop body: guarded by
`hasattr(context, 'period')`; then `if isInstantPeriod ... elif
isStartEndPeriod ...`. -/
def contextPeriodTriples (cu : Node) (b : Nat) (ctx : Context) : List Triple × Nat :=
  if ctx.hasPeriod then
    ([⟨cu, nsGet xbrlNS "period", Node.bnode b⟩,
      ⟨Node.bnode b, rdf_type, nsGet xbrlNS "Period"⟩]
     ++ (if ctx.isInstantPeriod then
           [⟨Node.bnode b, nsGet xbrlNS "instant", Node.litTyped ctx.instantDatetime xsd_dateTime⟩]
         else if ctx.isStartEndPeriod then
           [⟨Node.bnode b, nsGet xbrlNS "startDate", Node.litTyped ctx.startDatetime xsd_dateTime⟩,
            ⟨Node.bnode b, nsGet xbrlNS "endDate", Node.litTyped ctx.endDatetime xsd_dateTime⟩]
         else []), b + 1)
  else ([], b)

/-- Dimensional block of the `translate_contexts` loop body: guarded by
`hasattr(context, 'qnameDims') and context.qnameDims`. -/
def contextDimTriples (cu : Node) (b : Nat) (ctx : Context) : List Triple × Nat :=
  match ctx.qnameDims with
  | some dims => (dimsTriples cu b dims, b + dims.length)
  | none => ([], b)

/-- The `g.add` calls of one iteration of the `translate_contexts` loop, in
source order, together with the blank-node counter after it. -/
def contextTriples (b : Nat) (cid : String) (ctx : Context) : List Triple × Nat :=
  let cu := contextUri cid
  let entityPart := contextEntityTriples cu b ctx
  let periodPart := contextPeriodTriples cu entityPart.2 ctx
  let dimPart := contextDimTriples cu periodPart.2 ctx
  ([⟨cu, rdf_type, nsGet xbrlNS "Context"⟩,
    ⟨cu, nsGet xbrlNS "id", Node.litStr cid⟩]
   ++ entityPart.1 ++ periodPart.1 ++ dimPart.1, dimPart.2)

/-- The `translate_contexts` loop over `self.xbrl_model.contexts.items()`. -/
def runContextItems : Graph → Nat → List (Except String (String × Context)) → Graph × Nat × Option String
  | g, b, [] => (g, b, none)
  | g, b, .error e :: _ => (g, b, some e)
  | g, b, .ok (cid, ctx) :: rest =>
    let step := contextTriples b cid ctx
    runContextItems (g.addAll step.1) step.2 rest

/-- `translate_contexts()`: on an exception the message is printed, not
appended to `self.errors`. -/
def translate_contexts (st : TransState) (items : List (Except String (String × Context))) : TransState :=
  match runContextItems st.g st.bnodeCtr items with
  | (g, b, none) => { st with g := g, bnodeCtr := b }
  | (g, b, some e) =>
    { st with g := g, bnodeCtr := b,
              printed := st.printed ++ ["Error translating contexts: " ++ e] }

/- Pass 3: facts. -/

/-- The measure literals emitted for `fact.unit.measures`: one per measure
that has a `localName`, over all measure lists (numerator and denominator). -/
def measureTriples (un : Node) (ms : List (List (Option String))) : List Triple :=
  List.flatten (ms.map (fun ml =>
    ml.filterMap (fun mo =>
      mo.map (fun lname => (⟨un, nsGet xbrlNS "measure", Node.litStr lname⟩ : Triple)))))

/-- The footnote loop of `translate_facts`, one blank node per footnote. -/
def footnoteTriples (fu : Node) : Nat → List Footnote → List Triple
  | _, [] => []
  | b, fn :: rest =>
    ([⟨fu, nsGet xbrlNS "footnote", Node.bnode b⟩,
      ⟨Node.bnode b, rdf_type, nsGet xbrlNS "Footnote"⟩]
     ++ (match fn.text with
         | some s => [⟨Node.bnode b, nsGet xbrlNS "text", Node.litStr s⟩]
         | none => []))
    ++ footnoteTriples fu (b + 1) rest

/-- Concept-link block of the `translate_facts` loop body: guarded by
`hasattr(fact, 'concept') and fact.concept`. -/
def factConceptTriples (fu : Node) (f : Fact) : List Triple :=
  match f.concept with
  | some q => [⟨fu, nsGet xbrlNS "concept", nsGet conceptNS q.localName⟩]
  | none => []

/-- Context-link block of the `translate_facts` loop body: guarded by
`hasattr(fact, 'context') and fact.context`. -/
def factContextTriples (fu : Node) (f : Fact) : List Triple :=
  match f.context with
  | some cid => [⟨fu, nsGet xbrlNS "context", contextUri cid⟩]
  | none => []

/-- Unit block inside the numeric branch of `translate_facts`: guarded by
`hasattr(fact, 'unit') and fact.unit`, with the measure loop inside. -/
def factUnitTriples (fu : Node) (b : Nat) (f : Fact) : List Triple × Nat :=
  match f.unit with
  | some u =>
    ([⟨fu, nsGet xbrlNS "unit", Node.bnode b⟩,
      ⟨Node.bnode b, rdf_type, nsGet xbrlNS "Unit"⟩]
     ++ (match u.measures with
         | some ms => measureTriples (Node.bnode b) ms
         | none => []), b + 1)
  | none => ([], b)

/-- Precision/decimals block of the numeric branch: the source's
`if hasattr(fact, 'precision') and fact.precision is not None ... elif`
gives precision priority over decimals. -/
def factAccuracyTriples (fu : Node) (f : Fact) : List Triple :=
  match f.precision with
  | some p => [⟨fu, nsGet xbrlNS "precision", Node.litStr p⟩]
  | none =>
    match f.decimals with
    | some d => [⟨fu, nsGet xbrlNS "decimals", Node.litStr d⟩]
    | none => []

/-- Value block of the `translate_facts` loop body: guarded by
`hasattr(fact, 'value') and fact.value is not None`, then split on
`fact.isNumeric`. -/
def factValueTriples (fu : Node) (b : Nat) (f : Fact) : List Triple × Nat :=
  match f.value with
  | some v =>
    if f.isNumeric then
      ([⟨fu, nsGet xbrlNS "value", Node.litTyped v xsd_decimal⟩]
       ++ (factUnitTriples fu b f).1 ++ factAccuracyTriples fu f,
       (factUnitTriples fu b f).2)
    else
      ([⟨fu, nsGet xbrlNS "value", Node.litStr v⟩], b)
  | none => ([], b)

/-- The `g.add` calls of one iteration of the `translate_facts` loop (for a
given minted fact URI), in source order, with the blank-node counter after
it. -/
def factTriples (fu : Node) (b : Nat) (f : Fact) : List Triple × Nat :=
  let valuePart := factValueTriples fu b f
  let footPart : List Triple × Nat :=
    match f.footnotes with
    | some fns => (footnoteTriples fu valuePart.2 fns, valuePart.2 + fns.length)
    | none => ([], valuePart.2)
  ([⟨fu, rdf_type, nsGet xbrlNS "Fact"⟩,
    ⟨doc_uri, nsGet xbrlNS "hasFact", fu⟩]
   ++ factConceptTriples fu f ++ factContextTriples fu f
   ++ valuePart.1 ++ footPart.1, footPart.2)

/-- The `translate_facts` loop over `self.xbrl_model.facts`: each fact mints
`FACT[str(uuid.uuid4())]` (one uuid draw) before anything else. -/
def runFactItems (uuid : Nat → String) : Graph → Nat → Nat → List (Except String Fact) → Graph × Nat × Nat × Option String
  | g, u, b, [] => (g, u, b, none)
  | g, u, b, .error e :: _ => (g, u, b, some e)
  | g, u, b, .ok f :: rest =>
    let step := factTriples (nsGet factNS (uuid u)) b f
    runFactItems uuid (g.addAll step.1) (u + 1) step.2 rest

/-- `translate_facts()`: on an exception the message is printed, not appended
to `self.errors`. -/
def translate_facts (uuid : Nat → String) (st : TransState) (items : List (Except String Fact)) : TransState :=
  match runFactItems uuid st.g st.uuidCtr st.bnodeCtr items with
  | (g, u, b, none) => { st with g := g, uuidCtr := u, bnodeCtr := b }
  | (g, u, b, some e) =>
    { st with g := g, uuidCtr := u, bnodeCtr := b,
              printed := st.printed ++ ["Error translating facts: " ++ e] }

/- Pass 4: relationships. -/

/-- The `g.add` calls for one relationship (for a given minted relationship
URI), in source order. -/
def relTriples (ru : Node) (arcrole linkrole : String) (r : Rel) : List Triple :=
  [⟨ru, rdf_type, nsGet xbrlNS "Relationship"⟩,
   ⟨doc_uri, nsGet xbrlNS "hasRelationship", ru⟩,
   ⟨ru, nsGet xbrlNS "arcrole", Node.litStr arcrole⟩,
   ⟨ru, nsGet xbrlNS "linkrole", Node.litStr linkrole⟩]
  ++ (match r.fromModelObject with
      | some q => [⟨ru, nsGet xbrlNS "source", nsGet conceptNS q.localName⟩]
      | none => [])
  ++ (match r.toModelObject with
      | some q => [⟨ru, nsGet xbrlNS "target", nsGet conceptNS q.localName⟩]
      | none => [])
  ++ (match r.order with
      | some s => [⟨ru, nsGet xbrlNS "order", Node.litTyped s xsd_decimal⟩]
      | none => [])
  ++ (match r.weight with
      | some s => [⟨ru, nsGet xbrlNS "weight", Node.litTyped s xsd_decimal⟩]
      | none => [])
  ++ (match r.preferredLabel with
      | some s => if s = "" then [] else [⟨ru, nsGet xbrlNS "preferredLabel", Node.litStr s⟩]
      | none => [])

/-- Innermost loop of `translate_relationships`: over
`rel_set.modelRelationships`, one uuid draw per relationship. -/
def runRelItems (uuid : Nat → String) (arcrole linkrole : String) : Graph → Nat → List (Except String Rel) → Graph × Nat × Option String
  | g, u, [] => (g, u, none)
  | g, u, .error e :: _ => (g, u, some e)
  | g, u, .ok r :: rest =>
    runRelItems uuid arcrole linkrole (g.addAll (relTriples (nsGet relNS (uuid u)) arcrole linkrole r)) (u + 1) rest

/-- Middle loop of `translate_relationships`: over `linkrole_dict.items()`;
an exception in an inner loop aborts the whole pass. -/
def runLinkroleItems (uuid : Nat → String) (arcrole : String) : Graph → Nat → List (String × List (Except String Rel)) → Graph × Nat × Option String
  | g, u, [] => (g, u, none)
  | g, u, (linkrole, rels) :: rest =>
    match runRelItems uuid arcrole linkrole g u rels with
    | (g', u', none) => runLinkroleItems uuid arcrole g' u' rest
    | (g', u', some e) => (g', u', some e)

/-- Outer loop of `translate_relationships`: over
`self.xbrl_model.relationshipSets.items()`. -/
def runArcroleItems (uuid : Nat → String) : Graph → Nat → List (String × List (String × List (Except String Rel))) → Graph × Nat × Option String
  | g, u, [] => (g, u, none)
  | g, u, (arcrole, linkroles) :: rest =>
    match runLinkroleItems uuid arcrole g u linkroles with
    | (g', u', none) => runArcroleItems uuid g' u' rest
    | (g', u', some e) => (g', u', some e)

/-- `translate_relationships()`: guarded by
`hasattr(self.xbrl_model, 'relationshipSets')`; on an exception the message
is printed, not appended to `self.errors`. -/
def translate_relationships (uuid : Nat → String) (st : TransState) (rsets : Option (List (String × List (String × List (Except String Rel))))) : TransState :=
  match rsets with
  | none => st
  | some sets =>
    match runArcroleItems uuid st.g st.uuidCtr sets with
    | (g, u, none) => { st with g := g, uuidCtr := u }
    | (g, u, some e) =>
      { st with g := g, uuidCtr := u,
                printed := st.printed ++ ["Error translating relationships: " ++ e] }

/- Pass 5: taxonomy metadata. -/

/-- Schema loop of `translate_taxonomy`. -/
def runSchemaItems : Graph → List (Except String TaxonomySchema) → Graph × Option String
  | g, [] => (g, none)
  | g, .error e :: _ => (g, some e)
  | g, .ok s :: rest =>
    runSchemaItems
      (g.addAll [⟨taxonomyMainUri, nsGet xbrlNS "hasSchema", nsGet taxonomyNS s.localName⟩,
                 ⟨nsGet taxonomyNS s.localName, rdf_type, nsGet xbrlNS "Schema"⟩,
                 ⟨nsGet taxonomyNS s.localName, nsGet xbrlNS "namespace", Node.litStr s.namespaceURI⟩])
      rest

/-- Linkbase loop of `translate_taxonomy`. -/
def runLinkbaseItems : Graph → List (Except String TaxonomyLinkbase) → Graph × Option String
  | g, [] => (g, none)
  | g, .error e :: _ => (g, some e)
  | g, .ok l :: rest =>
    runLinkbaseItems
      (g.addAll [⟨taxonomyMainUri, nsGet xbrlNS "hasLinkbase", nsGet taxonomyNS l.localName⟩,
                 ⟨nsGet taxonomyNS l.localName, rdf_type, nsGet xbrlNS "Linkbase"⟩,
                 ⟨nsGet taxonomyNS l.localName, nsGet xbrlNS "role", Node.litStr l.role⟩])
      rest

/-- Schema and linkbase loops of the `translate_taxonomy` body, run after the
header triples: the first exception aborts the rest. -/
def taxonomyTail (g1 : Graph) (ss : Option (List (Except String TaxonomySchema)))
    (ls : Option (List (Except String TaxonomyLinkbase))) : Graph × Option String :=
  let sres := match ss with
    | some items => runSchemaItems g1 items
    | none => (g1, none)
  match sres.2 with
  | some e => (sres.1, some e)
  | none =>
    match ls with
    | some items => runLinkbaseItems sres.1 items
    | none => (sres.1, none)

/-- Graph update and possible exception of the `translate_taxonomy` body:
the `TAXONOMY["main"]` type triple, the optional entry point, then the schema
and linkbase loops. -/
def taxonomyResult (g : Graph) (ti : TaxonomyInfo) : Graph × Option String :=
  taxonomyTail
    (match ti.entryPoint with
      | some ep => (g.add ⟨taxonomyMainUri, rdf_type, nsGet xbrlNS "Taxonomy"⟩).add
          ⟨taxonomyMainUri, nsGet xbrlNS "entryPoint", Node.litStr ep⟩
      | none => g.add ⟨taxonomyMainUri, rdf_type, nsGet xbrlNS "Taxonomy"⟩)
    ti.schemas ti.linkbases

/-- `translate_taxonomy()`: guarded by `hasattr(self.xbrl_model, 'taxonomy')`;
the only pass whose `except` clause appends to `self.errors`
(`self.errors.append(f"Error translating taxonomy: {e}")`). -/
def translate_taxonomy (st : TransState) (t : Option TaxonomyInfo) : TransState :=
  match t with
  | none => st
  | some ti =>
    match taxonomyResult st.g ti with
    | (g', none) => { st with g := g' }
    | (g', some e) =>
      { st with g := g', errors := st.errors ++ ["Error translating taxonomy: " ++ e] }

/- The full translation pipeline. -/

/-- The two document-root triples added before any pass:
`(doc_uri, RDF.type, XBRL.Instance)` and the `DCTERMS.created` timestamp
(`datetime.now()` is the ambient `now`). -/
def docTriples (now : String) : List Triple :=
  [⟨doc_uri, rdf_type, nsGet xbrlNS "Instance"⟩,
   ⟨doc_uri, dcterms_created, Node.litTyped now xsd_dateTime⟩]

/-- The translator state after graph creation and the document-root adds. -/
def initState (now : String) : TransState :=
  { g := Graph.addAll [] (docTriples now), bnodeCtr := 0, uuidCtr := 0,
    errors := [], printed := [] }

/-- State after the concepts pass. -/
def stateAfterConcepts (now : String) (m : XBRLModel) : TransState :=
  translate_concepts (initState now) m.qnameConcepts

/-- State after the contexts pass. -/
def stateAfterContexts (now : String) (m : XBRLModel) : TransState :=
  translate_contexts (stateAfterConcepts now m) m.contexts

/-- State after the facts pass. -/
def stateAfterFacts (uuid : Nat → String) (now : String) (m : XBRLModel) : TransState :=
  translate_facts uuid (stateAfterContexts now m) m.facts

/-- State after the relationships pass. -/
def stateAfterRels (uuid : Nat → String) (now : String) (m : XBRLModel) : TransState :=
  translate_relationships uuid (stateAfterFacts uuid now m) m.relationshipSets

/-- `XBRLToRDF.xbrl_to_rdf()`: document root, then the five passes in order
concepts → contexts → facts → relationships → taxonomy.  The returned state
carries the produced graph together with `self.errors` and the console
output. -/
def xbrl_to_rdf (uuid : Nat → String) (now : String) (m : XBRLModel) : TransState :=
  translate_taxonomy (stateAfterRels uuid now m) m.taxonomy

/- Serialization (`save_rdf_graph`). -/

/-- The four formats accepted by `save_rdf_graph`. -/
def supportedFormats : List String := ["turtle", "xml", "n3", "json-ld"]

/-- Outcome of `save_rdf_graph`: either a `ValueError` was raised (with its
message) before any output was produced, or the graph was serialized to the
given file in the given format. -/
inductive SaveResult where
  | raised (msg : String)
  | written (filename fmt : String)
  deriving DecidableEq, Repr

/-- `XBRLToRDF.save_rdf_graph(graph, filename, format)`.  `not graph` is the
graph's truthiness, i.e. its triple count being zero; `not filename` is the
empty/unset filename; the format must be one of the four supported strings.
All three checks precede `graph.serialize`, so a raised error never writes
the file. -/
def save_rdf_graph (graph : Graph) (filename : String) (fmt : String) : SaveResult :=
  if graph = [] then SaveResult.raised "RDF graph cannot be None"
  else if filename = "" then SaveResult.raised "Output filename cannot be None"
  else if fmt ∉ supportedFormats then SaveResult.raised ("Unsupported format: " ++ fmt)
  else SaveResult.written filename fmt

/- Generic list and string helper lemmas. -/

theorem two_le_length_of_mem {α : Type} {a b : α} {l : List α}
    (ha : a ∈ l) (hb : b ∈ l) (hne : a ≠ b) : 2 ≤ l.length := by
  cases l with
  | nil => cases ha
  | cons x xs =>
    rcases List.mem_cons.mp ha with rfl | ha'
    · rcases List.mem_cons.mp hb with rfl | hb'
      · exact absurd rfl hne
      · have := List.length_pos_of_mem hb'
        simp only [List.length_cons]
        omega
    · have := List.length_pos_of_mem ha'
      simp only [List.length_cons]
      omega

theorem countP_eq_one_of_unique {α : Type} {p : α → Bool} {l : List α} {a : α}
    (hnd : l.Nodup) (ha : a ∈ l) (hpa : p a = true)
    (hu : ∀ b ∈ l, p b = true → b = a) : l.countP p = 1 := by
  induction l with
  | nil => cases ha
  | cons x xs ih =>
    have hnd' := (List.nodup_cons.mp hnd).2
    have hx := (List.nodup_cons.mp hnd).1
    rcases List.mem_cons.mp ha with rfl | ha'
    · have hzero : xs.countP p = 0 := by
        rw [List.countP_eq_zero]
        intro b hb hpb
        exact absurd (hu b (List.mem_cons_of_mem _ hb) hpb ▸ hb) hx
      rw [List.countP_cons, hzero, hpa]
      decide
    · have hpx : ¬ p x = true := by
        intro hpx
        exact hx ((hu x (List.mem_cons_self x xs) hpx) ▸ ha')
      rw [List.countP_cons]
      simp only [hpx]
      exact ih hnd' ha' (fun b hb hpb => hu b (List.mem_cons_of_mem _ hb) hpb)

theorem string_append_cancel {p a b : String} (h : p ++ a = p ++ b) : a = b := by
  apply String.ext
  have hd : (p ++ a).data = (p ++ b).data := congrArg String.data h
  rw [String.data_append, String.data_append] at hd
  exact List.append_cancel_left hd

theorem nsGet_inj {ns a b : String} (h : nsGet ns a = nsGet ns b) : a = b := by
  simp only [nsGet, Node.uri.injEq] at h
  exact string_append_cancel h

/- Membership characterizations for the per-item triple lists. -/

theorem conceptTriples_cases (c : Concept) :
    ∀ t ∈ conceptTriples c,
      t.s = conceptUri c ∧ (t.p = rdf_type → t.o = nsGet xbrlNS "Concept") ∧
      t.p ∈ [rdf_type, rdfs_label, nsGet xbrlNS "standardLabel", nsGet xbrlNS "type",
             nsGet xbrlNS "periodType", nsGet xbrlNS "balance", nsGet xbrlNS "abstract",
             nsGet xbrlNS "substitutionGroup"] := by
  obtain ⟨qn, lb, ty, pt, bal, ab, sg⟩ := c
  intro t ht
  simp only [conceptTriples, List.mem_append] at ht
  rcases ht with ((((((h | h) | h) | h) | h) | h) | h)
  · simp only [List.mem_cons, List.mem_singleton, List.not_mem_nil, or_false] at h
    rcases h with rfl | rfl
    · simp +decide
    · simp +decide
  · cases lb with
    | none => simp at h
    | some s =>
      by_cases hs : s = ""
      · simp [hs] at h
      · simp [hs] at h
        subst h
        simp +decide
  · cases ty with
    | none => simp at h
    | some tyv =>
      obtain ⟨tq⟩ := tyv
      cases tq with
      | none => simp at h
      | some q =>
        simp at h
        subst h
        simp +decide
  · cases pt with
    | none => simp at h
    | some s =>
      simp at h
      subst h
      simp +decide
  · cases bal with
    | none => simp at h
    | some s =>
      by_cases hs : s = ""
      · simp [hs] at h
      · simp [hs] at h
        subst h
        simp +decide
  · cases ab with
    | none => simp at h
    | some b =>
      simp at h
      subst h
      simp +decide
  · cases sg with
    | none => simp at h
    | some q =>
      simp at h
      subst h
      simp +decide

theorem dimsTriples_cases (cu : Node) (dims : List (QName × DimValue)) :
    ∀ (b : Nat), ∀ t ∈ dimsTriples cu b dims,
      (t.p = rdf_type → t.o = nsGet xbrlNS "Segment") ∧
      t.p ∈ [nsGet xbrlNS "segment", rdf_type, nsGet xbrlNS "dimension",
             nsGet xbrlNS "member", nsGet xbrlNS "typedValue"] := by
  induction dims with
  | nil =>
    intro b t ht
    cases ht
  | cons d rest ih =>
    intro b t ht
    obtain ⟨dq, dv⟩ := d
    simp only [dimsTriples, List.mem_append] at ht
    rcases ht with (h | h) | h
    · simp only [List.mem_cons, List.mem_singleton, List.not_mem_nil, or_false] at h
      rcases h with rfl | rfl | rfl
      · simp +decide
      · simp +decide
      · simp +decide
    · obtain ⟨dm, dt⟩ := dv
      cases dm with
      | some mq =>
        simp at h
        subst h
        simp +decide
      | none =>
        cases dt with
        | none => simp at h
        | some s =>
          simp at h
          subst h
          simp +decide
    · exact ih (b + 1) t h

theorem measureTriples_cases {un : Node} {ms : List (List (Option String))} {t : Triple}
    (h : t ∈ measureTriples un ms) : t.s = un ∧ t.p = nsGet xbrlNS "measure" := by
  simp only [measureTriples, List.mem_flatten, List.mem_map] at h
  obtain ⟨l, ⟨ml, _, rfl⟩, hmem⟩ := h
  simp only [List.mem_filterMap] at hmem
  obtain ⟨mo, _, hmap⟩ := hmem
  cases mo with
  | none => simp at hmap
  | some lname =>
    simp only [Option.map_some'] at hmap
    cases hmap
    exact ⟨rfl, rfl⟩

theorem footnoteTriples_cases (fu : Node) (fns : List Footnote) :
    ∀ (b : Nat), ∀ t ∈ footnoteTriples fu b fns,
      (∃ k, t = ⟨fu, nsGet xbrlNS "footnote", Node.bnode k⟩) ∨
      (∃ k, t = ⟨Node.bnode k, rdf_type, nsGet xbrlNS "Footnote"⟩) ∨
      (∃ k s, t = ⟨Node.bnode k, nsGet xbrlNS "text", Node.litStr s⟩) := by
  induction fns with
  | nil =>
    intro b t ht
    cases ht
  | cons fn rest ih =>
    intro b t ht
    simp only [footnoteTriples, List.mem_append] at ht
    rcases ht with (h | h) | h
    · simp only [List.mem_cons, List.mem_singleton, List.not_mem_nil, or_false] at h
      rcases h with rfl | rfl
      · exact Or.inl ⟨b, rfl⟩
      · exact Or.inr (Or.inl ⟨b, rfl⟩)
    · obtain ⟨tx⟩ := fn
      cases tx with
      | none => simp at h
      | some s =>
        simp at h
        subst h
        exact Or.inr (Or.inr ⟨b, s, rfl⟩)
    · exact ih (b + 1) t h

theorem factUnitTriples_cases (fu : Node) (b : Nat) (f : Fact) :
    ∀ t ∈ (factUnitTriples fu b f).1,
      t = ⟨fu, nsGet xbrlNS "unit", Node.bnode b⟩ ∨
      t = ⟨Node.bnode b, rdf_type, nsGet xbrlNS "Unit"⟩ ∨
      (t.s = Node.bnode b ∧ t.p = nsGet xbrlNS "measure") := by
  obtain ⟨fcq, fcx, fval, fnum, funit, fprec, fdec, ffoot⟩ := f
  intro t ht
  cases funit with
  | none => cases ht
  | some u =>
    obtain ⟨ms⟩ := u
    simp only [factUnitTriples, List.mem_append] at ht
    rcases ht with h | h
    · simp only [List.mem_cons, List.mem_singleton, List.not_mem_nil, or_false] at h
      rcases h with rfl | rfl
      · exact Or.inl rfl
      · exact Or.inr (Or.inl rfl)
    · cases ms with
      | none => simp at h
      | some msl => exact Or.inr (Or.inr (measureTriples_cases h))

theorem factAccuracyTriples_cases (fu : Node) (f : Fact) :
    ∀ t ∈ factAccuracyTriples fu f,
      (∃ p', f.precision = some p' ∧ t = ⟨fu, nsGet xbrlNS "precision", Node.litStr p'⟩) ∨
      (f.precision = none ∧ ∃ d', f.decimals = some d' ∧
        t = ⟨fu, nsGet xbrlNS "decimals", Node.litStr d'⟩) := by
  obtain ⟨fcq, fcx, fval, fnum, funit, fprec, fdec, ffoot⟩ := f
  intro t ht
  cases fprec with
  | some p =>
    simp [factAccuracyTriples] at ht
    exact Or.inl ⟨p, rfl, ht⟩
  | none =>
    cases fdec with
    | none => simp [factAccuracyTriples] at ht
    | some d =>
      simp [factAccuracyTriples] at ht
      exact Or.inr ⟨rfl, d, rfl, ht⟩

theorem factValueTriples_cases (fu : Node) (b : Nat) (f : Fact) :
    ∀ t ∈ (factValueTriples fu b f).1,
      (∃ v, t = ⟨fu, nsGet xbrlNS "value", Node.litTyped v xsd_decimal⟩) ∨
      (∃ v, t = ⟨fu, nsGet xbrlNS "value", Node.litStr v⟩) ∨
      t ∈ (factUnitTriples fu b f).1 ∨ t ∈ factAccuracyTriples fu f := by
  obtain ⟨fcq, fcx, fval, fnum, funit, fprec, fdec, ffoot⟩ := f
  intro t ht
  cases fval with
  | none => cases ht
  | some v =>
    cases fnum with
    | false =>
      simp [factValueTriples] at ht
      exact Or.inr (Or.inl ⟨v, ht⟩)
    | true =>
      simp [factValueTriples] at ht
      rcases ht with h | h | h
      · exact Or.inl ⟨v, h⟩
      · exact Or.inr (Or.inr (Or.inl h))
      · exact Or.inr (Or.inr (Or.inr h))

theorem factTriples_cases (fu : Node) (b : Nat) (f : Fact) :
    ∀ t ∈ (factTriples fu b f).1,
      t = ⟨fu, rdf_type, nsGet xbrlNS "Fact"⟩ ∨
      t = ⟨doc_uri, nsGet xbrlNS "hasFact", fu⟩ ∨
      (∃ q, f.concept = some q ∧ t = ⟨fu, nsGet xbrlNS "concept", nsGet conceptNS q.localName⟩) ∨
      (∃ cid, f.context = some cid ∧ t = ⟨fu, nsGet xbrlNS "context", contextUri cid⟩) ∨
      (∃ v, t = ⟨fu, nsGet xbrlNS "value", Node.litTyped v xsd_decimal⟩) ∨
      (∃ v, t = ⟨fu, nsGet xbrlNS "value", Node.litStr v⟩) ∨
      (∃ k, t = ⟨fu, nsGet xbrlNS "unit", Node.bnode k⟩) ∨
      (∃ k, t = ⟨Node.bnode k, rdf_type, nsGet xbrlNS "Unit"⟩) ∨
      (∃ k, t.s = Node.bnode k ∧ t.p = nsGet xbrlNS "measure") ∨
      (∃ p', f.precision = some p' ∧ t = ⟨fu, nsGet xbrlNS "precision", Node.litStr p'⟩) ∨
      (f.precision = none ∧ ∃ d', f.decimals = some d' ∧
        t = ⟨fu, nsGet xbrlNS "decimals", Node.litStr d'⟩) ∨
      (∃ k, t = ⟨fu, nsGet xbrlNS "footnote", Node.bnode k⟩) ∨
      (∃ k, t = ⟨Node.bnode k, rdf_type, nsGet xbrlNS "Footnote"⟩) ∨
      (∃ k s, t = ⟨Node.bnode k, nsGet xbrlNS "text", Node.litStr s⟩) := by
  intro t ht
  simp only [factTriples, List.mem_append] at ht
  rcases ht with ((((h | h) | h) | h) | h)
  · simp only [List.mem_cons, List.mem_singleton, List.not_mem_nil, or_false] at h
    rcases h with rfl | rfl
    · exact Or.inl rfl
    · exact Or.inr (Or.inl rfl)
  · simp only [factConceptTriples] at h
    rcases hq : f.concept with _ | q
    · rw [hq] at h
      simp at h
    · rw [hq] at h
      simp at h
      exact Or.inr (Or.inr (Or.inl ⟨q, rfl, h⟩))
  · simp only [factContextTriples] at h
    rcases hcid : f.context with _ | cid
    · rw [hcid] at h
      simp at h
    · rw [hcid] at h
      simp at h
      exact Or.inr (Or.inr (Or.inr (Or.inl ⟨cid, rfl, h⟩)))
  · rcases factValueTriples_cases fu b f t h with ⟨v, rfl⟩ | ⟨v, rfl⟩ | hu | ha
    · exact Or.inr (Or.inr (Or.inr (Or.inr (Or.inl ⟨v, rfl⟩))))
    · exact Or.inr (Or.inr (Or.inr (Or.inr (Or.inr (Or.inl ⟨v, rfl⟩)))))
    · rcases factUnitTriples_cases fu b f t hu with rfl | rfl | hm
      · exact Or.inr (Or.inr (Or.inr (Or.inr (Or.inr (Or.inr (Or.inl ⟨b, rfl⟩))))))
      · exact Or.inr (Or.inr (Or.inr (Or.inr (Or.inr (Or.inr (Or.inr (Or.inl ⟨b, rfl⟩)))))))
      · exact Or.inr (Or.inr (Or.inr (Or.inr (Or.inr (Or.inr (Or.inr (Or.inr (Or.inl ⟨b, hm⟩))))))))
    · rcases factAccuracyTriples_cases fu f t ha with ⟨p', hp', rfl⟩ | ⟨hpn, d', hd', rfl⟩
      · exact Or.inr (Or.inr (Or.inr (Or.inr (Or.inr (Or.inr (Or.inr (Or.inr (Or.inr (Or.inl ⟨p', hp', rfl⟩)))))))))
      · exact Or.inr (Or.inr (Or.inr (Or.inr (Or.inr (Or.inr (Or.inr (Or.inr (Or.inr (Or.inr (Or.inl ⟨hpn, d', hd', rfl⟩))))))))))
  · rcases hfn : f.footnotes with _ | fns
    · rw [hfn] at h
      simp at h
    · rw [hfn] at h
      replace h : t ∈ footnoteTriples fu (factValueTriples fu b f).2 fns := h
      rcases footnoteTriples_cases fu fns ((factValueTriples fu b f).2) t h with ⟨k, rfl⟩ | ⟨k, rfl⟩ | ⟨k, s, rfl⟩
      · exact Or.inr (Or.inr (Or.inr (Or.inr (Or.inr (Or.inr (Or.inr (Or.inr (Or.inr (Or.inr (Or.inr (Or.inl ⟨k, rfl⟩)))))))))))
      · exact Or.inr (Or.inr (Or.inr (Or.inr (Or.inr (Or.inr (Or.inr (Or.inr (Or.inr (Or.inr (Or.inr (Or.inr (Or.inl ⟨k, rfl⟩))))))))))))
      · exact Or.inr (Or.inr (Or.inr (Or.inr (Or.inr (Or.inr (Or.inr (Or.inr (Or.inr (Or.inr (Or.inr (Or.inr (Or.inr ⟨k, s, rfl⟩))))))))))))

theorem contextTriples_cases (b : Nat) (cid : String) (ctx : Context) :
    ∀ t ∈ (contextTriples b cid ctx).1,
      (t.p = rdf_type → t.o ∈ [nsGet xbrlNS "Context", nsGet xbrlNS "Entity",
                               nsGet xbrlNS "Period", nsGet xbrlNS "Segment"]) ∧
      t.p ∈ [rdf_type, nsGet xbrlNS "id", nsGet xbrlNS "entity", nsGet xbrlNS "identifier",
             nsGet xbrlNS "scheme", nsGet xbrlNS "period", nsGet xbrlNS "instant",
             nsGet xbrlNS "startDate", nsGet xbrlNS "endDate", nsGet xbrlNS "segment",
             nsGet xbrlNS "dimension", nsGet xbrlNS "member", nsGet xbrlNS "typedValue"] ∧
      (t.p = nsGet xbrlNS "instant" → ctx.isInstantPeriod = true) ∧
      ((t.p = nsGet xbrlNS "startDate" ∨ t.p = nsGet xbrlNS "endDate") →
        ctx.isInstantPeriod = false ∧ ctx.isStartEndPeriod = true) := by
  obtain ⟨ei, hp, ip, sep, idt, sdt, edt, qd⟩ := ctx
  intro t ht
  simp only [contextTriples, List.mem_append] at ht
  rcases ht with ((h | h) | h) | h
  · simp only [List.mem_cons, List.mem_singleton, List.not_mem_nil, or_false] at h
    rcases h with rfl | rfl
    · simp +decide
    · simp +decide
  · cases ei with
    | none => cases h
    | some inner =>
      simp only [contextEntityTriples, List.mem_append] at h
      rcases h with h | h
      · simp only [List.mem_cons, List.mem_singleton, List.not_mem_nil, or_false] at h
        rcases h with rfl | rfl
        · simp +decide
        · simp +decide
      · cases inner with
        | none => simp at h
        | some pair =>
          simp at h
          rcases h with rfl | rfl
          · simp +decide
          · simp +decide
  · cases hp with
    | false => simp [contextPeriodTriples] at h
    | true =>
      cases ip with
      | true =>
        simp [contextPeriodTriples] at h
        rcases h with rfl | rfl | rfl
        · simp +decide
        · simp +decide
        · simp +decide
      | false =>
        cases sep with
        | true =>
          simp [contextPeriodTriples] at h
          rcases h with rfl | rfl | rfl | rfl
          · simp +decide
          · simp +decide
          · simp +decide
          · simp +decide
        | false =>
          simp [contextPeriodTriples] at h
          rcases h with rfl | rfl
          · simp +decide
          · simp +decide
  · cases qd with
    | none => cases h
    | some dims =>
      replace h : t ∈ dimsTriples (contextUri cid)
          (contextPeriodTriples (contextUri cid)
            (contextEntityTriples (contextUri cid) b
              ⟨ei, hp, ip, sep, idt, sdt, edt, some dims⟩).2
            ⟨ei, hp, ip, sep, idt, sdt, edt, some dims⟩).2 dims := h
      have hd := dimsTriples_cases (contextUri cid) dims _ t h
      obtain ⟨hd1, hd2⟩ := hd
      simp only [List.mem_cons, List.mem_singleton, List.not_mem_nil, or_false] at hd2
      refine ⟨?_, ?_, ?_, ?_⟩
      · intro hr
        rw [hd1 hr]
        decide
      · rcases hd2 with h2 | h2 | h2 | h2 | h2 <;> rw [h2] <;> decide
      · intro hr
        rcases hd2 with h2 | h2 | h2 | h2 | h2 <;> rw [h2] at hr <;>
          exact absurd hr (by decide)
      · intro hr
        rcases hr with hr | hr <;>
          rcases hd2 with h2 | h2 | h2 | h2 | h2 <;> rw [h2] at hr <;>
            exact absurd hr (by decide)

theorem relTriples_cases (ru : Node) (arcrole linkrole : String) (r : Rel) :
    ∀ t ∈ relTriples ru arcrole linkrole r,
      (t.p = rdf_type → t = ⟨ru, rdf_type, nsGet xbrlNS "Relationship"⟩) ∧
      (t.p = nsGet xbrlNS "hasRelationship" →
        t = ⟨doc_uri, nsGet xbrlNS "hasRelationship", ru⟩) ∧
      t.p ∈ [rdf_type, nsGet xbrlNS "hasRelationship", nsGet xbrlNS "arcrole",
             nsGet xbrlNS "linkrole", nsGet xbrlNS "source", nsGet xbrlNS "target",
             nsGet xbrlNS "order", nsGet xbrlNS "weight", nsGet xbrlNS "preferredLabel"] := by
  obtain ⟨rfo, rto, rord, rwt, rpl⟩ := r
  intro t ht
  simp only [relTriples, List.mem_append] at ht
  rcases ht with (((((h | h) | h) | h) | h) | h)
  · simp only [List.mem_cons, List.mem_singleton, List.not_mem_nil, or_false] at h
    rcases h with rfl | rfl | rfl | rfl
    · simp +decide
    · simp +decide
    · simp +decide
    · simp +decide
  · cases rfo with
    | none => cases h
    | some q =>
      simp at h
      subst h
      simp +decide
  · cases rto with
    | none => cases h
    | some q =>
      simp at h
      subst h
      simp +decide
  · cases rord with
    | none => cases h
    | some s =>
      simp at h
      subst h
      simp +decide
  · cases rwt with
    | none => cases h
    | some s =>
      simp at h
      subst h
      simp +decide
  · cases rpl with
    | none => cases h
    | some s =>
      by_cases hs : s = ""
      · simp [hs] at h
      · simp [hs] at h
        subst h
        simp +decide

theorem oksBefore_map_ok {α : Type} (l : List α) :
    oksBefore (l.map (Except.ok : α → Except String α)) = l := by
  induction l with
  | nil => rfl
  | cons a rest ih => simp [oksBefore, ih]

theorem mem_oksBefore_of_all_ok {α : Type} {items : List (Except String α)}
    (hall : ∀ x ∈ items, ∃ v, x = Except.ok v) {a : α}
    (ha : Except.ok a ∈ items) : a ∈ oksBefore items := by
  induction items with
  | nil => cases ha
  | cons x rest ih =>
    obtain ⟨v, rfl⟩ := hall x (List.mem_cons_self x rest)
    simp only [oksBefore]
    rcases List.mem_cons.mp ha with he | hm
    · exact List.mem_cons.mpr (Or.inl (Except.ok.inj he))
    · exact List.mem_cons.mpr (Or.inr (ih (fun y hy => hall y (List.mem_cons_of_mem _ hy)) hm))

theorem runConceptItems_mem (items : List (Except String Concept)) :
    ∀ (g : Graph) (t : Triple),
      t ∈ (runConceptItems g items).1 ↔
        t ∈ g ∨ ∃ c ∈ oksBefore items, t ∈ conceptTriples c := by
  induction items with
  | nil => intro g t; simp [runConceptItems, oksBefore]
  | cons x rest ih =>
    intro g t
    cases x with
    | error e => simp [runConceptItems, oksBefore]
    | ok c =>
      show t ∈ (runConceptItems (g.addAll (conceptTriples c)) rest).1 ↔ _
      rw [ih, Graph.mem_addAll]
      simp only [oksBefore, List.mem_cons]
      constructor
      · rintro ((hg | hc) | ⟨c', hc', ht⟩)
        · exact Or.inl hg
        · exact Or.inr ⟨c, Or.inl rfl, hc⟩
        · exact Or.inr ⟨c', Or.inr hc', ht⟩
      · rintro (hg | ⟨c', hc'mem, ht⟩)
        · exact Or.inl (Or.inl hg)
        · rcases hc'mem with rfl | hmem
          · exact Or.inl (Or.inr ht)
          · exact Or.inr ⟨c', hmem, ht⟩

theorem runConceptItems_err_all_ok {items : List (Except String Concept)}
    (hall : ∀ x ∈ items, ∃ v, x = Except.ok v) :
    ∀ g, (runConceptItems g items).2 = none := by
  induction items with
  | nil => intro g; rfl
  | cons x rest ih =>
    intro g
    obtain ⟨v, rfl⟩ := hall x (List.mem_cons_self x rest)
    exact ih (fun y hy => hall y (List.mem_cons_of_mem _ hy)) _

theorem runConceptItems_nodup (items : List (Except String Concept)) :
    ∀ {g : Graph}, g.Nodup → (runConceptItems g items).1.Nodup := by
  induction items with
  | nil => intro g h; exact h
  | cons x rest ih =>
    intro g h
    cases x with
    | error e => exact h
    | ok c => exact ih (Graph.nodup_addAll h)

theorem translate_concepts_g (st : TransState) (items : List (Except String Concept)) :
    (translate_concepts st items).g = (runConceptItems st.g items).1 := by
  rcases h : runConceptItems st.g items with ⟨g', _ | e⟩ <;> simp [translate_concepts, h]

theorem translate_concepts_errors (st : TransState) (items : List (Except String Concept)) :
    (translate_concepts st items).errors = st.errors := by
  rcases h : runConceptItems st.g items with ⟨g', _ | e⟩ <;> simp [translate_concepts, h]

theorem translate_concepts_uuidCtr (st : TransState) (items : List (Except String Concept)) :
    (translate_concepts st items).uuidCtr = st.uuidCtr := by
  rcases h : runConceptItems st.g items with ⟨g', _ | e⟩ <;> simp [translate_concepts, h]

theorem translate_concepts_bnodeCtr (st : TransState) (items : List (Except String Concept)) :
    (translate_concepts st items).bnodeCtr = st.bnodeCtr := by
  rcases h : runConceptItems st.g items with ⟨g', _ | e⟩ <;> simp [translate_concepts, h]

theorem translate_concepts_printed_all_ok (st : TransState)
    {items : List (Except String Concept)}
    (hall : ∀ x ∈ items, ∃ v, x = Except.ok v) :
    (translate_concepts st items).printed = st.printed := by
  rcases h : runConceptItems st.g items with ⟨g', e⟩
  have := runConceptItems_err_all_ok hall st.g
  rw [h] at this
  subst this
  simp [translate_concepts, h]

theorem contextTriples_type_mem (b : Nat) (cid : String) (ctx : Context) :
    (⟨contextUri cid, rdf_type, nsGet xbrlNS "Context"⟩ : Triple) ∈ (contextTriples b cid ctx).1 := by
  simp [contextTriples]

theorem runContextItems_mono (items : List (Except String (String × Context))) :
    ∀ {g : Graph} {b : Nat} {t : Triple}, t ∈ g → t ∈ (runContextItems g b items).1 := by
  induction items with
  | nil => intro g b t h; exact h
  | cons x rest ih =>
    intro g b t h
    cases x with
    | error e => exact h
    | ok p => exact ih (Graph.mem_addAll.mpr (Or.inl h))

theorem runContextItems_nodup (items : List (Except String (String × Context))) :
    ∀ {g : Graph} {b : Nat}, g.Nodup → (runContextItems g b items).1.Nodup := by
  induction items with
  | nil => intro g b h; exact h
  | cons x rest ih =>
    intro g b h
    cases x with
    | error e => exact h
    | ok p => exact ih (Graph.nodup_addAll h)

theorem runContextItems_mem (items : List (Except String (String × Context))) :
    ∀ {g : Graph} {b : Nat} {t : Triple}, t ∈ (runContextItems g b items).1 →
      t ∈ g ∨ ∃ b' cid ctx, (cid, ctx) ∈ oksBefore items ∧ t ∈ (contextTriples b' cid ctx).1 := by
  induction items with
  | nil => intro g b t h; exact Or.inl h
  | cons x rest ih =>
    intro g b t h
    cases x with
    | error e => exact Or.inl h
    | ok p =>
      obtain ⟨cid, ctx⟩ := p
      rcases ih h with hg | ⟨b', cid', ctx', hmem, ht⟩
      · rcases Graph.mem_addAll.mp hg with hg' | hc
        · exact Or.inl hg'
        · exact Or.inr ⟨b, cid, ctx, by simp [oksBefore], hc⟩
      · exact Or.inr ⟨b', cid', ctx', by simp only [oksBefore, List.mem_cons]; exact Or.inr hmem, ht⟩

theorem runContextItems_type_backward (items : List (Except String (String × Context))) :
    ∀ {g : Graph} {b : Nat} {cid : String} {ctx : Context},
      (cid, ctx) ∈ oksBefore items →
      (⟨contextUri cid, rdf_type, nsGet xbrlNS "Context"⟩ : Triple) ∈ (runContextItems g b items).1 := by
  induction items with
  | nil => intro g b cid ctx h; cases h
  | cons x rest ih =>
    intro g b cid ctx h
    cases x with
    | error e => cases h
    | ok p =>
      obtain ⟨cid0, ctx0⟩ := p
      simp only [oksBefore, List.mem_cons] at h
      rcases h with heq | hmem
      · obtain ⟨h1, h2⟩ := Prod.mk.injEq .. ▸ heq
        subst h1
        exact runContextItems_mono rest
          (Graph.mem_addAll.mpr (Or.inr (contextTriples_type_mem _ _ _)))
      · exact ih hmem

theorem runContextItems_err_all_ok {items : List (Except String (String × Context))}
    (hall : ∀ x ∈ items, ∃ v, x = Except.ok v) :
    ∀ g b, (runContextItems g b items).2.2 = none := by
  induction items with
  | nil => intro g b; rfl
  | cons x rest ih =>
    intro g b
    obtain ⟨v, rfl⟩ := hall x (List.mem_cons_self x rest)
    obtain ⟨cid, ctx⟩ := v
    exact ih (fun y hy => hall y (List.mem_cons_of_mem _ hy)) _ _

theorem translate_contexts_g (st : TransState) (items : List (Except String (String × Context))) :
    (translate_contexts st items).g = (runContextItems st.g st.bnodeCtr items).1 := by
  rcases h : runContextItems st.g st.bnodeCtr items with ⟨g', b', _ | e⟩ <;>
    simp [translate_contexts, h]

theorem translate_contexts_errors (st : TransState) (items : List (Except String (String × Context))) :
    (translate_contexts st items).errors = st.errors := by
  rcases h : runContextItems st.g st.bnodeCtr items with ⟨g', b', _ | e⟩ <;>
    simp [translate_contexts, h]

theorem translate_contexts_uuidCtr (st : TransState) (items : List (Except String (String × Context))) :
    (translate_contexts st items).uuidCtr = st.uuidCtr := by
  rcases h : runContextItems st.g st.bnodeCtr items with ⟨g', b', _ | e⟩ <;>
    simp [translate_contexts, h]

theorem translate_contexts_printed_all_ok (st : TransState)
    {items : List (Except String (String × Context))}
    (hall : ∀ x ∈ items, ∃ v, x = Except.ok v) :
    (translate_contexts st items).printed = st.printed := by
  rcases h : runContextItems st.g st.bnodeCtr items with ⟨g', b', e⟩
  have := runContextItems_err_all_ok hall st.g st.bnodeCtr
  rw [h] at this
  subst this
  simp [translate_contexts, h]

theorem factTriples_type_mem (fu : Node) (b : Nat) (f : Fact) :
    (⟨fu, rdf_type, nsGet xbrlNS "Fact"⟩ : Triple) ∈ (factTriples fu b f).1 := by
  simp [factTriples]

theorem factTriples_hasFact_mem (fu : Node) (b : Nat) (f : Fact) :
    (⟨doc_uri, nsGet xbrlNS "hasFact", fu⟩ : Triple) ∈ (factTriples fu b f).1 := by
  simp [factTriples]

theorem factTriples_conceptLink_mem (fu : Node) (b : Nat) {f : Fact} {q : QName}
    (hq : f.concept = some q) :
    (⟨fu, nsGet xbrlNS "concept", nsGet conceptNS q.localName⟩ : Triple) ∈ (factTriples fu b f).1 := by
  simp [factTriples, factConceptTriples, hq]

theorem factTriples_contextLink_mem (fu : Node) (b : Nat) {f : Fact} {cid : String}
    (hcid : f.context = some cid) :
    (⟨fu, nsGet xbrlNS "context", contextUri cid⟩ : Triple) ∈ (factTriples fu b f).1 := by
  simp [factTriples, factContextTriples, hcid]

theorem runFactItems_mono (uuid : Nat → String) (items : List (Except String Fact)) :
    ∀ {g : Graph} {u b : Nat} {t : Triple}, t ∈ g → t ∈ (runFactItems uuid g u b items).1 := by
  induction items with
  | nil => intro g u b t h; exact h
  | cons x rest ih =>
    intro g u b t h
    cases x with
    | error e => exact h
    | ok f => exact ih (Graph.mem_addAll.mpr (Or.inl h))

theorem runFactItems_nodup (uuid : Nat → String) (items : List (Except String Fact)) :
    ∀ {g : Graph} {u b : Nat}, g.Nodup → (runFactItems uuid g u b items).1.Nodup := by
  induction items with
  | nil => intro g u b h; exact h
  | cons x rest ih =>
    intro g u b h
    cases x with
    | error e => exact h
    | ok f => exact ih (Graph.nodup_addAll h)

theorem runFactItems_mem (uuid : Nat → String) (items : List (Except String Fact)) :
    ∀ {g : Graph} {u b : Nat} {t : Triple}, t ∈ (runFactItems uuid g u b items).1 →
      t ∈ g ∨ ∃ i f b', (oksBefore items)[i]? = some f ∧
        t ∈ (factTriples (nsGet factNS (uuid (u + i))) b' f).1 ∧
        ∀ t' ∈ (factTriples (nsGet factNS (uuid (u + i))) b' f).1,
          t' ∈ (runFactItems uuid g u b items).1 := by
  induction items with
  | nil => intro g u b t h; exact Or.inl h
  | cons x rest ih =>
    intro g u b t h
    cases x with
    | error e => exact Or.inl h
    | ok f =>
      rcases ih h with hg | ⟨i, f', b', hidx, ht, hsub⟩
      · rcases Graph.mem_addAll.mp hg with hg' | hc
        · exact Or.inl hg'
        · refine Or.inr ⟨0, f, b, by simp [oksBefore], by simpa using hc, ?_⟩
          intro t' ht'
          exact runFactItems_mono uuid rest (Graph.mem_addAll.mpr (Or.inr (by simpa using ht')))
      · refine Or.inr ⟨i + 1, f', b', ?_, ?_, ?_⟩
        · simpa [oksBefore] using hidx
        · have : u + 1 + i = u + (i + 1) := by omega
          rw [this] at ht
          exact ht
        · intro t' ht'
          have : u + 1 + i = u + (i + 1) := by omega
          rw [← this] at ht'
          exact hsub t' ht'

theorem runFactItems_backward (uuid : Nat → String) (items : List (Except String Fact)) :
    ∀ {g : Graph} {u b : Nat} {i : Nat} {f : Fact}, (oksBefore items)[i]? = some f →
      ((⟨nsGet factNS (uuid (u + i)), rdf_type, nsGet xbrlNS "Fact"⟩ : Triple)
        ∈ (runFactItems uuid g u b items).1) ∧
      ((⟨doc_uri, nsGet xbrlNS "hasFact", nsGet factNS (uuid (u + i))⟩ : Triple)
        ∈ (runFactItems uuid g u b items).1) ∧
      (∀ q, f.concept = some q →
        (⟨nsGet factNS (uuid (u + i)), nsGet xbrlNS "concept", nsGet conceptNS q.localName⟩ : Triple)
          ∈ (runFactItems uuid g u b items).1) ∧
      (∀ cid, f.context = some cid →
        (⟨nsGet factNS (uuid (u + i)), nsGet xbrlNS "context", contextUri cid⟩ : Triple)
          ∈ (runFactItems uuid g u b items).1) := by
  induction items with
  | nil => intro g u b i f h; simp [oksBefore] at h
  | cons x rest ih =>
    intro g u b i f h
    cases x with
    | error e => simp [oksBefore] at h
    | ok f0 =>
      simp only [oksBefore] at h
      cases i with
      | zero =>
        simp only [List.getElem?_cons_zero, Option.some.injEq] at h
        subst h
        refine ⟨?_, ?_, ?_, ?_⟩
        · exact runFactItems_mono uuid rest
            (Graph.mem_addAll.mpr (Or.inr (by simpa using factTriples_type_mem _ b f0)))
        · exact runFactItems_mono uuid rest
            (Graph.mem_addAll.mpr (Or.inr (by simpa using factTriples_hasFact_mem _ b f0)))
        · intro q hq
          exact runFactItems_mono uuid rest
            (Graph.mem_addAll.mpr (Or.inr (by simpa using factTriples_conceptLink_mem _ b hq)))
        · intro cid hcid
          exact runFactItems_mono uuid rest
            (Graph.mem_addAll.mpr (Or.inr (by simpa using factTriples_contextLink_mem _ b hcid)))
      | succ j =>
        simp only [List.getElem?_cons_succ] at h
        have := ih (g := (g.addAll (factTriples (nsGet factNS (uuid u)) b f0).1))
          (u := u + 1) (b := (factTriples (nsGet factNS (uuid u)) b f0).2) h
        have harith : u + 1 + j = u + (j + 1) := by omega
        rw [harith] at this
        exact this

theorem runFactItems_err_all_ok {items : List (Except String Fact)}
    (hall : ∀ x ∈ items, ∃ v, x = Except.ok v) (uuid : Nat → String) :
    ∀ g u b, (runFactItems uuid g u b items).2.2.2 = none := by
  induction items with
  | nil => intro g u b; rfl
  | cons x rest ih =>
    intro g u b
    obtain ⟨v, rfl⟩ := hall x (List.mem_cons_self x rest)
    exact ih (fun y hy => hall y (List.mem_cons_of_mem _ hy)) _ _ _

theorem translate_facts_g (uuid : Nat → String) (st : TransState) (items : List (Except String Fact)) :
    (translate_facts uuid st items).g = (runFactItems uuid st.g st.uuidCtr st.bnodeCtr items).1 := by
  rcases h : runFactItems uuid st.g st.uuidCtr st.bnodeCtr items with ⟨g', u', b', _ | e⟩ <;>
    simp [translate_facts, h]

theorem translate_facts_errors (uuid : Nat → String) (st : TransState) (items : List (Except String Fact)) :
    (translate_facts uuid st items).errors = st.errors := by
  rcases h : runFactItems uuid st.g st.uuidCtr st.bnodeCtr items with ⟨g', u', b', _ | e⟩ <;>
    simp [translate_facts, h]

theorem translate_facts_printed_all_ok (uuid : Nat → String) (st : TransState)
    {items : List (Except String Fact)}
    (hall : ∀ x ∈ items, ∃ v, x = Except.ok v) :
    (translate_facts uuid st items).printed = st.printed := by
  rcases h : runFactItems uuid st.g st.uuidCtr st.bnodeCtr items with ⟨g', u', b', e⟩
  have := runFactItems_err_all_ok hall uuid st.g st.uuidCtr st.bnodeCtr
  rw [h] at this
  subst this
  simp [translate_facts, h]

theorem runRelItems_mono (uuid : Nat → String) (arcrole linkrole : String)
    (items : List (Except String Rel)) :
    ∀ {g : Graph} {u : Nat} {t : Triple}, t ∈ g →
      t ∈ (runRelItems uuid arcrole linkrole g u items).1 := by
  induction items with
  | nil => intro g u t h; exact h
  | cons x rest ih =>
    intro g u t h
    cases x with
    | error e => exact h
    | ok r => exact ih (Graph.mem_addAll.mpr (Or.inl h))

theorem runRelItems_nodup (uuid : Nat → String) (arcrole linkrole : String)
    (items : List (Except String Rel)) :
    ∀ {g : Graph} {u : Nat}, g.Nodup → (runRelItems uuid arcrole linkrole g u items).1.Nodup := by
  induction items with
  | nil => intro g u h; exact h
  | cons x rest ih =>
    intro g u h
    cases x with
    | error e => exact h
    | ok r => exact ih (Graph.nodup_addAll h)

theorem runRelItems_mem (uuid : Nat → String) (arcrole linkrole : String)
    (items : List (Except String Rel)) :
    ∀ {g : Graph} {u : Nat} {t : Triple}, t ∈ (runRelItems uuid arcrole linkrole g u items).1 →
      t ∈ g ∨ ∃ u' r, t ∈ relTriples (nsGet relNS (uuid u')) arcrole linkrole r ∧
        ∀ t' ∈ relTriples (nsGet relNS (uuid u')) arcrole linkrole r,
          t' ∈ (runRelItems uuid arcrole linkrole g u items).1 := by
  induction items with
  | nil => intro g u t h; exact Or.inl h
  | cons x rest ih =>
    intro g u t h
    cases x with
    | error e => exact Or.inl h
    | ok r =>
      rcases ih h with hg | ⟨u', r', ht, hsub⟩
      · rcases Graph.mem_addAll.mp hg with hg' | hc
        · exact Or.inl hg'
        · refine Or.inr ⟨u, r, hc, ?_⟩
          intro t' ht'
          exact runRelItems_mono uuid arcrole linkrole rest (Graph.mem_addAll.mpr (Or.inr ht'))
      · exact Or.inr ⟨u', r', ht, hsub⟩

theorem runLinkroleItems_mono (uuid : Nat → String) (arcrole : String)
    (items : List (String × List (Except String Rel))) :
    ∀ {g : Graph} {u : Nat} {t : Triple}, t ∈ g →
      t ∈ (runLinkroleItems uuid arcrole g u items).1 := by
  induction items with
  | nil => intro g u t h; exact h
  | cons x rest ih =>
    intro g u t h
    obtain ⟨linkrole, rels⟩ := x
    show t ∈ (match runRelItems uuid arcrole linkrole g u rels with
      | (g', u', none) => runLinkroleItems uuid arcrole g' u' rest
      | (g', u', some e) => (g', u', some e)).1
    rcases hr : runRelItems uuid arcrole linkrole g u rels with ⟨g', u', _ | e⟩
    · have hmem : t ∈ g' := by
        have := runRelItems_mono uuid arcrole linkrole rels (g := g) (u := u) h
        rw [hr] at this
        exact this
      exact ih hmem
    · have := runRelItems_mono uuid arcrole linkrole rels (g := g) (u := u) h
      rw [hr] at this
      exact this

theorem runLinkroleItems_nodup (uuid : Nat → String) (arcrole : String)
    (items : List (String × List (Except String Rel))) :
    ∀ {g : Graph} {u : Nat}, g.Nodup → (runLinkroleItems uuid arcrole g u items).1.Nodup := by
  induction items with
  | nil => intro g u h; exact h
  | cons x rest ih =>
    intro g u h
    obtain ⟨linkrole, rels⟩ := x
    show (match runRelItems uuid arcrole linkrole g u rels with
      | (g', u', none) => runLinkroleItems uuid arcrole g' u' rest
      | (g', u', some e) => (g', u', some e)).1.Nodup
    rcases hr : runRelItems uuid arcrole linkrole g u rels with ⟨g', u', _ | e⟩
    · refine ih ?_
      have := runRelItems_nodup uuid arcrole linkrole rels (g := g) (u := u) h
      rw [hr] at this
      exact this
    · have := runRelItems_nodup uuid arcrole linkrole rels (g := g) (u := u) h
      rw [hr] at this
      exact this

theorem runLinkroleItems_mem (uuid : Nat → String) (arcrole : String)
    (items : List (String × List (Except String Rel))) :
    ∀ {g : Graph} {u : Nat} {t : Triple}, t ∈ (runLinkroleItems uuid arcrole g u items).1 →
      t ∈ g ∨ ∃ u' linkrole r, t ∈ relTriples (nsGet relNS (uuid u')) arcrole linkrole r ∧
        ∀ t' ∈ relTriples (nsGet relNS (uuid u')) arcrole linkrole r,
          t' ∈ (runLinkroleItems uuid arcrole g u items).1 := by
  induction items with
  | nil => intro g u t h; exact Or.inl h
  | cons x rest ih =>
    intro g u t h
    obtain ⟨linkrole, rels⟩ := x
    replace h : t ∈ (match runRelItems uuid arcrole linkrole g u rels with
      | (g', u', none) => runLinkroleItems uuid arcrole g' u' rest
      | (g', u', some e) => (g', u', some e)).1 := h
    rcases hr : runRelItems uuid arcrole linkrole g u rels with ⟨g', u', _ | e⟩
    · rw [hr] at h
      replace h : t ∈ (runLinkroleItems uuid arcrole g' u' rest).1 := h
      rcases ih h with hg | ⟨u'', lr, r, ht, hsub⟩
      · have hm := runRelItems_mem uuid arcrole linkrole rels (g := g) (u := u)
          (t := t) (by rw [hr]; exact hg)
        rcases hm with hg' | ⟨u3, r3, ht3, hsub3⟩
        · exact Or.inl hg'
        · refine Or.inr ⟨u3, linkrole, r3, ht3, ?_⟩
          intro t' ht'
          have h2 := hsub3 t' ht'
          rw [hr] at h2
          replace h2 : t' ∈ g' := h2
          show t' ∈ (match runRelItems uuid arcrole linkrole g u rels with
            | (g', u', none) => runLinkroleItems uuid arcrole g' u' rest
            | (g', u', some e) => (g', u', some e)).1
          rw [hr]
          exact runLinkroleItems_mono uuid arcrole rest h2
      · refine Or.inr ⟨u'', lr, r, ht, ?_⟩
        intro t' ht'
        have h2 := hsub t' ht'
        show t' ∈ (match runRelItems uuid arcrole linkrole g u rels with
          | (g', u', none) => runLinkroleItems uuid arcrole g' u' rest
          | (g', u', some e) => (g', u', some e)).1
        rw [hr]
        exact h2
    · rw [hr] at h
      replace h : t ∈ g' := h
      have hm := runRelItems_mem uuid arcrole linkrole rels (g := g) (u := u)
        (t := t) (by rw [hr]; exact h)
      rcases hm with hg' | ⟨u3, r3, ht3, hsub3⟩
      · exact Or.inl hg'
      · refine Or.inr ⟨u3, linkrole, r3, ht3, ?_⟩
        intro t' ht'
        have h2 := hsub3 t' ht'
        rw [hr] at h2
        replace h2 : t' ∈ g' := h2
        show t' ∈ (match runRelItems uuid arcrole linkrole g u rels with
          | (g', u', none) => runLinkroleItems uuid arcrole g' u' rest
          | (g', u', some e) => (g', u', some e)).1
        rw [hr]
        exact h2

theorem runArcroleItems_mono (uuid : Nat → String)
    (items : List (String × List (String × List (Except String Rel)))) :
    ∀ {g : Graph} {u : Nat} {t : Triple}, t ∈ g →
      t ∈ (runArcroleItems uuid g u items).1 := by
  induction items with
  | nil => intro g u t h; exact h
  | cons x rest ih =>
    intro g u t h
    obtain ⟨arcrole, linkroles⟩ := x
    show t ∈ (match runLinkroleItems uuid arcrole g u linkroles with
      | (g', u', none) => runArcroleItems uuid g' u' rest
      | (g', u', some e) => (g', u', some e)).1
    rcases hr : runLinkroleItems uuid arcrole g u linkroles with ⟨g', u', _ | e⟩
    · refine ih ?_
      have := runLinkroleItems_mono uuid arcrole linkroles (g := g) (u := u) h
      rw [hr] at this
      exact this
    · have := runLinkroleItems_mono uuid arcrole linkroles (g := g) (u := u) h
      rw [hr] at this
      exact this

theorem runArcroleItems_nodup (uuid : Nat → String)
    (items : List (String × List (String × List (Except String Rel)))) :
    ∀ {g : Graph} {u : Nat}, g.Nodup → (runArcroleItems uuid g u items).1.Nodup := by
  induction items with
  | nil => intro g u h; exact h
  | cons x rest ih =>
    intro g u h
    obtain ⟨arcrole, linkroles⟩ := x
    show (match runLinkroleItems uuid arcrole g u linkroles with
      | (g', u', none) => runArcroleItems uuid g' u' rest
      | (g', u', some e) => (g', u', some e)).1.Nodup
    rcases hr : runLinkroleItems uuid arcrole g u linkroles with ⟨g', u', _ | e⟩
    · refine ih ?_
      have := runLinkroleItems_nodup uuid arcrole linkroles (g := g) (u := u) h
      rw [hr] at this
      exact this
    · have := runLinkroleItems_nodup uuid arcrole linkroles (g := g) (u := u) h
      rw [hr] at this
      exact this

theorem runArcroleItems_mem (uuid : Nat → String)
    (items : List (String × List (String × List (Except String Rel)))) :
    ∀ {g : Graph} {u : Nat} {t : Triple}, t ∈ (runArcroleItems uuid g u items).1 →
      t ∈ g ∨ ∃ u' arcrole linkrole r,
        t ∈ relTriples (nsGet relNS (uuid u')) arcrole linkrole r ∧
        ∀ t' ∈ relTriples (nsGet relNS (uuid u')) arcrole linkrole r,
          t' ∈ (runArcroleItems uuid g u items).1 := by
  induction items with
  | nil => intro g u t h; exact Or.inl h
  | cons x rest ih =>
    intro g u t h
    obtain ⟨arcrole, linkroles⟩ := x
    replace h : t ∈ (match runLinkroleItems uuid arcrole g u linkroles with
      | (g', u', none) => runArcroleItems uuid g' u' rest
      | (g', u', some e) => (g', u', some e)).1 := h
    rcases hr : runLinkroleItems uuid arcrole g u linkroles with ⟨g', u', _ | e⟩
    · rw [hr] at h
      replace h : t ∈ (runArcroleItems uuid g' u' rest).1 := h
      rcases ih h with hg | ⟨u'', a, lr, r, ht, hsub⟩
      · have hm := runLinkroleItems_mem uuid arcrole linkroles (g := g) (u := u)
          (t := t) (by rw [hr]; exact hg)
        rcases hm with hg' | ⟨u3, lr3, r3, ht3, hsub3⟩
        · exact Or.inl hg'
        · refine Or.inr ⟨u3, arcrole, lr3, r3, ht3, ?_⟩
          intro t' ht'
          have h2 := hsub3 t' ht'
          rw [hr] at h2
          replace h2 : t' ∈ g' := h2
          show t' ∈ (match runLinkroleItems uuid arcrole g u linkroles with
            | (g', u', none) => runArcroleItems uuid g' u' rest
            | (g', u', some e) => (g', u', some e)).1
          rw [hr]
          exact runArcroleItems_mono uuid rest h2
      · refine Or.inr ⟨u'', a, lr, r, ht, ?_⟩
        intro t' ht'
        have h2 := hsub t' ht'
        show t' ∈ (match runLinkroleItems uuid arcrole g u linkroles with
          | (g', u', none) => runArcroleItems uuid g' u' rest
          | (g', u', some e) => (g', u', some e)).1
        rw [hr]
        exact h2
    · rw [hr] at h
      replace h : t ∈ g' := h
      have hm := runLinkroleItems_mem uuid arcrole linkroles (g := g) (u := u)
        (t := t) (by rw [hr]; exact h)
      rcases hm with hg' | ⟨u3, lr3, r3, ht3, hsub3⟩
      · exact Or.inl hg'
      · refine Or.inr ⟨u3, arcrole, lr3, r3, ht3, ?_⟩
        intro t' ht'
        have h2 := hsub3 t' ht'
        rw [hr] at h2
        replace h2 : t' ∈ g' := h2
        show t' ∈ (match runLinkroleItems uuid arcrole g u linkroles with
          | (g', u', none) => runArcroleItems uuid g' u' rest
          | (g', u', some e) => (g', u', some e)).1
        rw [hr]
        exact h2

theorem runLinkroleItems_empty (uuid : Nat → String) (arcrole : String)
    {items : List (String × List (Except String Rel))}
    (hz : ∀ lr ∈ items, lr.2 = ([] : List (Except String Rel))) :
    ∀ g u, runLinkroleItems uuid arcrole g u items = (g, u, none) := by
  induction items with
  | nil => intro g u; rfl
  | cons y lrest ihl =>
    intro g u
    obtain ⟨linkrole, rels⟩ := y
    have hrels : rels = [] := hz (linkrole, rels) (List.mem_cons_self _ _)
    subst hrels
    show (match runRelItems uuid arcrole linkrole g u [] with
      | (g', u', none) => runLinkroleItems uuid arcrole g' u' lrest
      | (g', u', some e) => (g', u', some e)) = (g, u, none)
    exact ihl (fun lr hlr => hz lr (List.mem_cons_of_mem _ hlr)) g u

theorem runArcroleItems_empty (uuid : Nat → String)
    {items : List (String × List (String × List (Except String Rel)))}
    (hz : ∀ al ∈ items, ∀ lr ∈ al.2, lr.2 = ([] : List (Except String Rel))) :
    ∀ g u, runArcroleItems uuid g u items = (g, u, none) := by
  induction items with
  | nil => intro g u; rfl
  | cons x rest ih =>
    intro g u
    obtain ⟨arcrole, linkroles⟩ := x
    have hlr := @runLinkroleItems_empty uuid arcrole linkroles
      (fun lr hlr => hz (arcrole, linkroles) (List.mem_cons_self _ _) lr hlr) g u
    show (match runLinkroleItems uuid arcrole g u linkroles with
      | (g', u', none) => runArcroleItems uuid g' u' rest
      | (g', u', some e) => (g', u', some e)) = (g, u, none)
    rw [hlr]
    exact ih (fun al hal lr hlr2 => hz al (List.mem_cons_of_mem _ hal) lr hlr2) g u

theorem runRelItems_err_all_ok {items : List (Except String Rel)}
    (hall : ∀ x ∈ items, ∃ v, x = Except.ok v) (uuid : Nat → String) (arcrole linkrole : String) :
    ∀ g u, (runRelItems uuid arcrole linkrole g u items).2.2 = none := by
  induction items with
  | nil => intro g u; rfl
  | cons x rest ih =>
    intro g u
    obtain ⟨v, rfl⟩ := hall x (List.mem_cons_self x rest)
    exact ih (fun y hy => hall y (List.mem_cons_of_mem _ hy)) _ _

theorem runLinkroleItems_err_all_ok {items : List (String × List (Except String Rel))}
    (hall : ∀ lr ∈ items, ∀ x ∈ lr.2, ∃ v, x = Except.ok v)
    (uuid : Nat → String) (arcrole : String) :
    ∀ g u, (runLinkroleItems uuid arcrole g u items).2.2 = none := by
  induction items with
  | nil => intro g u; rfl
  | cons y rest ih =>
    intro g u
    obtain ⟨linkrole, rels⟩ := y
    show (match runRelItems uuid arcrole linkrole g u rels with
      | (g', u', none) => runLinkroleItems uuid arcrole g' u' rest
      | (g', u', some e) => (g', u', some e)).2.2 = none
    rcases hr : runRelItems uuid arcrole linkrole g u rels with ⟨g', u', _ | e⟩
    · exact ih (fun lr hlr => hall lr (List.mem_cons_of_mem _ hlr)) g' u'
    · have := runRelItems_err_all_ok
        (hall (linkrole, rels) (List.mem_cons_self _ _)) uuid arcrole linkrole g u
      rw [hr] at this
      cases this

theorem runArcroleItems_err_all_ok {items : List (String × List (String × List (Except String Rel)))}
    (hall : ∀ al ∈ items, ∀ lr ∈ al.2, ∀ x ∈ lr.2, ∃ v, x = Except.ok v)
    (uuid : Nat → String) :
    ∀ g u, (runArcroleItems uuid g u items).2.2 = none := by
  induction items with
  | nil => intro g u; rfl
  | cons y rest ih =>
    intro g u
    obtain ⟨arcrole, linkroles⟩ := y
    show (match runLinkroleItems uuid arcrole g u linkroles with
      | (g', u', none) => runArcroleItems uuid g' u' rest
      | (g', u', some e) => (g', u', some e)).2.2 = none
    rcases hr : runLinkroleItems uuid arcrole g u linkroles with ⟨g', u', _ | e⟩
    · exact ih (fun al hal => hall al (List.mem_cons_of_mem _ hal)) g' u'
    · have := runLinkroleItems_err_all_ok
        (hall (arcrole, linkroles) (List.mem_cons_self _ _)) uuid arcrole g u
      rw [hr] at this
      cases this

theorem translate_relationships_none (uuid : Nat → String) (st : TransState) :
    translate_relationships uuid st none = st := rfl

theorem translate_relationships_some_g (uuid : Nat → String) (st : TransState)
    (sets : List (String × List (String × List (Except String Rel)))) :
    (translate_relationships uuid st (some sets)).g = (runArcroleItems uuid st.g st.uuidCtr sets).1 := by
  rcases h : runArcroleItems uuid st.g st.uuidCtr sets with ⟨g', u', _ | e⟩ <;>
    simp [translate_relationships, h]

theorem translate_relationships_errors (uuid : Nat → String) (st : TransState)
    (rsets : Option (List (String × List (String × List (Except String Rel))))) :
    (translate_relationships uuid st rsets).errors = st.errors := by
  cases rsets with
  | none => rfl
  | some sets =>
    rcases h : runArcroleItems uuid st.g st.uuidCtr sets with ⟨g', u', _ | e⟩ <;>
      simp [translate_relationships, h]

theorem translate_relationships_printed_all_ok (uuid : Nat → String) (st : TransState)
    {sets : List (String × List (String × List (Except String Rel)))}
    (hall : ∀ al ∈ sets, ∀ lr ∈ al.2, ∀ x ∈ lr.2, ∃ v, x = Except.ok v) :
    (translate_relationships uuid st (some sets)).printed = st.printed := by
  rcases h : runArcroleItems uuid st.g st.uuidCtr sets with ⟨g', u', e⟩
  have := runArcroleItems_err_all_ok hall uuid st.g st.uuidCtr
  rw [h] at this
  subst this
  simp [translate_relationships, h]

theorem translate_relationships_mono (uuid : Nat → String) (st : TransState)
    (rsets : Option (List (String × List (String × List (Except String Rel)))))
    {t : Triple} (h : t ∈ st.g) : t ∈ (translate_relationships uuid st rsets).g := by
  cases rsets with
  | none => exact h
  | some sets =>
    rw [translate_relationships_some_g]
    exact runArcroleItems_mono uuid sets h

theorem translate_relationships_nodup (uuid : Nat → String) (st : TransState)
    (rsets : Option (List (String × List (String × List (Except String Rel)))))
    (h : st.g.Nodup) : (translate_relationships uuid st rsets).g.Nodup := by
  cases rsets with
  | none => exact h
  | some sets =>
    rw [translate_relationships_some_g]
    exact runArcroleItems_nodup uuid sets h

theorem translate_relationships_mem (uuid : Nat → String) (st : TransState)
    (rsets : Option (List (String × List (String × List (Except String Rel)))))
    {t : Triple} (h : t ∈ (translate_relationships uuid st rsets).g) :
    t ∈ st.g ∨ ∃ u' arcrole linkrole r,
      t ∈ relTriples (nsGet relNS (uuid u')) arcrole linkrole r ∧
      ∀ t' ∈ relTriples (nsGet relNS (uuid u')) arcrole linkrole r,
        t' ∈ (translate_relationships uuid st rsets).g := by
  cases rsets with
  | none => exact Or.inl h
  | some sets =>
    rw [translate_relationships_some_g] at h ⊢
    exact runArcroleItems_mem uuid sets h

theorem runSchemaItems_mono (items : List (Except String TaxonomySchema)) :
    ∀ {g : Graph} {t : Triple}, t ∈ g → t ∈ (runSchemaItems g items).1 := by
  induction items with
  | nil => intro g t h; exact h
  | cons x rest ih =>
    intro g t h
    cases x with
    | error e => exact h
    | ok s => exact ih (Graph.mem_addAll.mpr (Or.inl h))

theorem runSchemaItems_nodup (items : List (Except String TaxonomySchema)) :
    ∀ {g : Graph}, g.Nodup → (runSchemaItems g items).1.Nodup := by
  induction items with
  | nil => intro g h; exact h
  | cons x rest ih =>
    intro g h
    cases x with
    | error e => exact h
    | ok s => exact ih (Graph.nodup_addAll h)

theorem runSchemaItems_mem (items : List (Except String TaxonomySchema)) :
    ∀ {g : Graph} {t : Triple}, t ∈ (runSchemaItems g items).1 →
      t ∈ g ∨ ((t.p = rdf_type → t.o = nsGet xbrlNS "Schema") ∧
        t.p ∈ [nsGet xbrlNS "hasSchema", rdf_type, nsGet xbrlNS "namespace"]) := by
  induction items with
  | nil => intro g t h; exact Or.inl h
  | cons x rest ih =>
    intro g t h
    cases x with
    | error e => exact Or.inl h
    | ok s =>
      rcases ih h with hg | hs
      · rcases Graph.mem_addAll.mp hg with hg' | hc
        · exact Or.inl hg'
        · simp only [List.mem_cons, List.mem_singleton, List.not_mem_nil, or_false] at hc
          rcases hc with rfl | rfl | rfl
          · exact Or.inr (by simp +decide)
          · exact Or.inr (by simp +decide)
          · exact Or.inr (by simp +decide)
      · exact Or.inr hs

theorem runLinkbaseItems_mono (items : List (Except String TaxonomyLinkbase)) :
    ∀ {g : Graph} {t : Triple}, t ∈ g → t ∈ (runLinkbaseItems g items).1 := by
  induction items with
  | nil => intro g t h; exact h
  | cons x rest ih =>
    intro g t h
    cases x with
    | error e => exact h
    | ok l => exact ih (Graph.mem_addAll.mpr (Or.inl h))

theorem runLinkbaseItems_nodup (items : List (Except String TaxonomyLinkbase)) :
    ∀ {g : Graph}, g.Nodup → (runLinkbaseItems g items).1.Nodup := by
  induction items with
  | nil => intro g h; exact h
  | cons x rest ih =>
    intro g h
    cases x with
    | error e => exact h
    | ok l => exact ih (Graph.nodup_addAll h)

theorem runLinkbaseItems_mem (items : List (Except String TaxonomyLinkbase)) :
    ∀ {g : Graph} {t : Triple}, t ∈ (runLinkbaseItems g items).1 →
      t ∈ g ∨ ((t.p = rdf_type → t.o = nsGet xbrlNS "Linkbase") ∧
        t.p ∈ [nsGet xbrlNS "hasLinkbase", rdf_type, nsGet xbrlNS "role"]) := by
  induction items with
  | nil => intro g t h; exact Or.inl h
  | cons x rest ih =>
    intro g t h
    cases x with
    | error e => exact Or.inl h
    | ok l =>
      rcases ih h with hg | hs
      · rcases Graph.mem_addAll.mp hg with hg' | hc
        · exact Or.inl hg'
        · simp only [List.mem_cons, List.mem_singleton, List.not_mem_nil, or_false] at hc
          rcases hc with rfl | rfl | rfl
          · exact Or.inr (by simp +decide)
          · exact Or.inr (by simp +decide)
          · exact Or.inr (by simp +decide)
      · exact Or.inr hs

/-- Predicate/type-object shape of every triple added by the taxonomy pass. -/
def taxShape (t : Triple) : Prop :=
  (t.p = rdf_type → t.o ∈ [nsGet xbrlNS "Taxonomy", nsGet xbrlNS "Schema",
    nsGet xbrlNS "Linkbase"]) ∧
  t.p ∈ [rdf_type, nsGet xbrlNS "entryPoint", nsGet xbrlNS "hasSchema",
         nsGet xbrlNS "namespace", nsGet xbrlNS "hasLinkbase", nsGet xbrlNS "role"]

theorem taxShape_of_schema {t : Triple}
    (h1 : t.p = rdf_type → t.o = nsGet xbrlNS "Schema")
    (h2 : t.p ∈ [nsGet xbrlNS "hasSchema", rdf_type, nsGet xbrlNS "namespace"]) :
    taxShape t := by
  refine ⟨fun hr => by rw [h1 hr]; decide, ?_⟩
  rcases List.mem_cons.mp h2 with h3 | h3
  · rw [h3]; decide
  · rcases List.mem_cons.mp h3 with h4 | h4
    · rw [h4]; decide
    · simp only [List.mem_singleton] at h4
      rw [h4]; decide

theorem taxShape_of_linkbase {t : Triple}
    (h1 : t.p = rdf_type → t.o = nsGet xbrlNS "Linkbase")
    (h2 : t.p ∈ [nsGet xbrlNS "hasLinkbase", rdf_type, nsGet xbrlNS "role"]) :
    taxShape t := by
  refine ⟨fun hr => by rw [h1 hr]; decide, ?_⟩
  rcases List.mem_cons.mp h2 with h3 | h3
  · rw [h3]; decide
  · rcases List.mem_cons.mp h3 with h4 | h4
    · rw [h4]; decide
    · simp only [List.mem_singleton] at h4
      rw [h4]; decide

theorem tax_g1_mem {g : Graph} {ep : Option String} {t : Triple}
    (h : t ∈ (match ep with
      | some e => (g.add ⟨taxonomyMainUri, rdf_type, nsGet xbrlNS "Taxonomy"⟩).add
          ⟨taxonomyMainUri, nsGet xbrlNS "entryPoint", Node.litStr e⟩
      | none => g.add ⟨taxonomyMainUri, rdf_type, nsGet xbrlNS "Taxonomy"⟩)) :
    t ∈ g ∨ taxShape t := by
  cases ep with
  | none =>
    rcases Graph.mem_add.mp h with hg | rfl
    · exact Or.inl hg
    · exact Or.inr (by constructor <;> simp +decide)
  | some e =>
    rcases Graph.mem_add.mp h with hg | rfl
    · rcases Graph.mem_add.mp hg with hg' | rfl
      · exact Or.inl hg'
      · exact Or.inr (by constructor <;> simp +decide)
    · exact Or.inr (by constructor <;> simp +decide)

theorem tax_g1_mono {g : Graph} {ep : Option String} {t : Triple} (h : t ∈ g) :
    t ∈ (match ep with
      | some e => (g.add ⟨taxonomyMainUri, rdf_type, nsGet xbrlNS "Taxonomy"⟩).add
          ⟨taxonomyMainUri, nsGet xbrlNS "entryPoint", Node.litStr e⟩
      | none => g.add ⟨taxonomyMainUri, rdf_type, nsGet xbrlNS "Taxonomy"⟩) := by
  cases ep with
  | none => exact Graph.mem_add.mpr (Or.inl h)
  | some e => exact Graph.mem_add.mpr (Or.inl (Graph.mem_add.mpr (Or.inl h)))

theorem tax_g1_nodup {g : Graph} {ep : Option String} (h : g.Nodup) :
    (match ep with
      | some e => (g.add ⟨taxonomyMainUri, rdf_type, nsGet xbrlNS "Taxonomy"⟩).add
          ⟨taxonomyMainUri, nsGet xbrlNS "entryPoint", Node.litStr e⟩
      | none => g.add ⟨taxonomyMainUri, rdf_type, nsGet xbrlNS "Taxonomy"⟩).Nodup := by
  cases ep with
  | none => exact Graph.nodup_add h
  | some e => exact Graph.nodup_add (Graph.nodup_add h)

theorem taxonomyTail_mem {g1 : Graph} {ss : Option (List (Except String TaxonomySchema))}
    {ls : Option (List (Except String TaxonomyLinkbase))} {t : Triple}
    (h : t ∈ (taxonomyTail g1 ss ls).1) : t ∈ g1 ∨ taxShape t := by
  cases ss with
  | none =>
    simp only [taxonomyTail] at h
    cases ls with
    | none => exact Or.inl h
    | some items =>
      rcases runLinkbaseItems_mem items h with hg | ⟨h1, h2⟩
      · exact Or.inl hg
      · exact Or.inr (taxShape_of_linkbase h1 h2)
  | some items =>
    simp only [taxonomyTail] at h
    rcases hs : runSchemaItems g1 items with ⟨g2, e2⟩
    rw [hs] at h
    have hg2 : ∀ {t' : Triple}, t' ∈ g2 → t' ∈ g1 ∨ taxShape t' := by
      intro t' ht'
      have := runSchemaItems_mem items (g := g1) (t := t') (by rw [hs]; exact ht')
      rcases this with hg | ⟨h1, h2⟩
      · exact Or.inl hg
      · exact Or.inr (taxShape_of_schema h1 h2)
    cases e2 with
    | some e =>
      replace h : t ∈ g2 := h
      exact hg2 h
    | none =>
      cases ls with
      | none =>
        replace h : t ∈ g2 := h
        exact hg2 h
      | some litems =>
        replace h : t ∈ (runLinkbaseItems g2 litems).1 := h
        rcases runLinkbaseItems_mem litems h with hg | ⟨h1, h2⟩
        · exact hg2 hg
        · exact Or.inr (taxShape_of_linkbase h1 h2)

theorem taxonomyTail_mono {g1 : Graph} {ss : Option (List (Except String TaxonomySchema))}
    {ls : Option (List (Except String TaxonomyLinkbase))} {t : Triple}
    (h : t ∈ g1) : t ∈ (taxonomyTail g1 ss ls).1 := by
  cases ss with
  | none =>
    simp only [taxonomyTail]
    cases ls with
    | none => exact h
    | some items => exact runLinkbaseItems_mono items h
  | some items =>
    simp only [taxonomyTail]
    rcases hs : runSchemaItems g1 items with ⟨g2, e2⟩
    have hg2 : t ∈ g2 := by
      have := runSchemaItems_mono items (g := g1) h
      rw [hs] at this
      exact this
    cases e2 with
    | some e => exact hg2
    | none =>
      cases ls with
      | none => exact hg2
      | some litems => exact runLinkbaseItems_mono litems hg2

theorem taxonomyTail_nodup {g1 : Graph} {ss : Option (List (Except String TaxonomySchema))}
    {ls : Option (List (Except String TaxonomyLinkbase))}
    (h : g1.Nodup) : (taxonomyTail g1 ss ls).1.Nodup := by
  cases ss with
  | none =>
    simp only [taxonomyTail]
    cases ls with
    | none => exact h
    | some items => exact runLinkbaseItems_nodup items h
  | some items =>
    simp only [taxonomyTail]
    rcases hs : runSchemaItems g1 items with ⟨g2, e2⟩
    have hg2 : g2.Nodup := by
      have := runSchemaItems_nodup items (g := g1) h
      rw [hs] at this
      exact this
    cases e2 with
    | some e => exact hg2
    | none =>
      cases ls with
      | none => exact hg2
      | some litems => exact runLinkbaseItems_nodup litems hg2

theorem taxonomyResult_mem {g : Graph} {ti : TaxonomyInfo} {t : Triple}
    (h : t ∈ (taxonomyResult g ti).1) : t ∈ g ∨ taxShape t := by
  rcases taxonomyTail_mem h with hg | hs
  · exact tax_g1_mem hg
  · exact Or.inr hs

theorem taxonomyResult_mono {g : Graph} {ti : TaxonomyInfo} {t : Triple}
    (h : t ∈ g) : t ∈ (taxonomyResult g ti).1 :=
  taxonomyTail_mono (tax_g1_mono h)

theorem taxonomyResult_nodup {g : Graph} {ti : TaxonomyInfo} (h : g.Nodup) :
    (taxonomyResult g ti).1.Nodup :=
  taxonomyTail_nodup (tax_g1_nodup h)

theorem translate_taxonomy_none (st : TransState) : translate_taxonomy st none = st := rfl

theorem translate_taxonomy_g (st : TransState) (ti : TaxonomyInfo) :
    (translate_taxonomy st (some ti)).g = (taxonomyResult st.g ti).1 := by
  rcases h : taxonomyResult st.g ti with ⟨g', _ | e⟩ <;> simp [translate_taxonomy, h]

theorem translate_taxonomy_mem (st : TransState) (ti : Option TaxonomyInfo)
    {t : Triple} (ht : t ∈ (translate_taxonomy st ti).g) :
    t ∈ st.g ∨ taxShape t := by
  cases ti with
  | none => exact Or.inl ht
  | some tinfo =>
    rw [translate_taxonomy_g] at ht
    exact taxonomyResult_mem ht

theorem translate_taxonomy_mono (st : TransState) (ti : Option TaxonomyInfo)
    {t : Triple} (ht : t ∈ st.g) : t ∈ (translate_taxonomy st ti).g := by
  cases ti with
  | none => exact ht
  | some tinfo =>
    rw [translate_taxonomy_g]
    exact taxonomyResult_mono ht

theorem translate_taxonomy_nodup (st : TransState) (ti : Option TaxonomyInfo)
    (h : st.g.Nodup) : (translate_taxonomy st ti).g.Nodup := by
  cases ti with
  | none => exact h
  | some tinfo =>
    rw [translate_taxonomy_g]
    exact taxonomyResult_nodup h

theorem initState_g (now : String) : (initState now).g = docTriples now := by
  simp +decide [initState, docTriples, Graph.addAll, Graph.add, rdf_type, dcterms_created,
    nsGet, rdfNS, dctermsNS, xbrlNS, doc_uri, companyNS, xsd_dateTime, xsdNS]

theorem translate_concepts_mono (st : TransState) (items : List (Except String Concept))
    {t : Triple} (h : t ∈ st.g) : t ∈ (translate_concepts st items).g := by
  rw [translate_concepts_g]
  exact (runConceptItems_mem items st.g t).mpr (Or.inl h)

theorem translate_contexts_mono (st : TransState) (items : List (Except String (String × Context)))
    {t : Triple} (h : t ∈ st.g) : t ∈ (translate_contexts st items).g := by
  rw [translate_contexts_g]
  exact runContextItems_mono items h

theorem translate_facts_mono (uuid : Nat → String) (st : TransState)
    (items : List (Except String Fact))
    {t : Triple} (h : t ∈ st.g) : t ∈ (translate_facts uuid st items).g := by
  rw [translate_facts_g]
  exact runFactItems_mono uuid items h

theorem uuidCtr_stateAfterContexts (now : String) (m : XBRLModel) :
    (stateAfterContexts now m).uuidCtr = 0 := by
  rw [stateAfterContexts, translate_contexts_uuidCtr, stateAfterConcepts,
    translate_concepts_uuidCtr]
  rfl

theorem errors_stateAfterRels (uuid : Nat → String) (now : String) (m : XBRLModel) :
    (stateAfterRels uuid now m).errors = [] := by
  rw [stateAfterRels, translate_relationships_errors, stateAfterFacts, translate_facts_errors,
    stateAfterContexts, translate_contexts_errors, stateAfterConcepts, translate_concepts_errors]
  rfl

theorem xbrl_nodup (uuid : Nat → String) (now : String) (m : XBRLModel) :
    (xbrl_to_rdf uuid now m).g.Nodup := by
  apply translate_taxonomy_nodup
  apply translate_relationships_nodup
  rw [stateAfterFacts, translate_facts_g]
  apply runFactItems_nodup
  rw [stateAfterContexts, translate_contexts_g]
  apply runContextItems_nodup
  rw [stateAfterConcepts, translate_concepts_g]
  apply runConceptItems_nodup
  exact Graph.nodup_addAll List.nodup_nil

theorem mem_final_of_init (uuid : Nat → String) (now : String) (m : XBRLModel)
    {t : Triple} (h : t ∈ (initState now).g) : t ∈ (xbrl_to_rdf uuid now m).g :=
  translate_taxonomy_mono _ _ (translate_relationships_mono uuid _ _
    (translate_facts_mono uuid _ _ (translate_contexts_mono _ _
      (translate_concepts_mono _ _ h))))

theorem mem_final_of_afterFacts (uuid : Nat → String) (now : String) (m : XBRLModel)
    {t : Triple} (h : t ∈ (stateAfterFacts uuid now m).g) : t ∈ (xbrl_to_rdf uuid now m).g :=
  translate_taxonomy_mono _ _ (translate_relationships_mono uuid _ _ h)

theorem mem_final_of_afterContexts (uuid : Nat → String) (now : String) (m : XBRLModel)
    {t : Triple} (h : t ∈ (stateAfterContexts now m).g) : t ∈ (xbrl_to_rdf uuid now m).g :=
  mem_final_of_afterFacts uuid now m (translate_facts_mono uuid _ _ h)

theorem xbrl_mem_cases (uuid : Nat → String) (now : String) (m : XBRLModel)
    {t : Triple} (ht : t ∈ (xbrl_to_rdf uuid now m).g) :
    t ∈ docTriples now ∨
    (∃ c ∈ oksBefore m.qnameConcepts, t ∈ conceptTriples c) ∨
    (∃ b' cid ctx, (cid, ctx) ∈ oksBefore m.contexts ∧ t ∈ (contextTriples b' cid ctx).1) ∨
    (∃ i f b', (oksBefore m.facts)[i]? = some f ∧
      t ∈ (factTriples (nsGet factNS (uuid i)) b' f).1 ∧
      ∀ t' ∈ (factTriples (nsGet factNS (uuid i)) b' f).1, t' ∈ (xbrl_to_rdf uuid now m).g) ∨
    (∃ u' arcrole linkrole r, t ∈ relTriples (nsGet relNS (uuid u')) arcrole linkrole r ∧
      ∀ t' ∈ relTriples (nsGet relNS (uuid u')) arcrole linkrole r,
        t' ∈ (xbrl_to_rdf uuid now m).g) ∨
    taxShape t := by
  rcases translate_taxonomy_mem (stateAfterRels uuid now m) m.taxonomy ht with h1 | hshape
  · rcases translate_relationships_mem uuid (stateAfterFacts uuid now m) m.relationshipSets h1
      with h2 | ⟨u', a, l, r, hrt, hrsub⟩
    · rw [stateAfterFacts, translate_facts_g, uuidCtr_stateAfterContexts] at h2
      rcases runFactItems_mem uuid m.facts h2 with h3 | ⟨i, f, b', hidx, htf, hsub⟩
      · rw [stateAfterContexts, translate_contexts_g] at h3
        rcases runContextItems_mem m.contexts h3 with h4 | ⟨b', cid, ctx, hmem, htc⟩
        · rw [stateAfterConcepts, translate_concepts_g] at h4
          rcases (runConceptItems_mem m.qnameConcepts _ _).mp h4 with h5 | ⟨c, hc, htcc⟩
          · rw [initState_g] at h5
            exact Or.inl h5
          · exact Or.inr (Or.inl ⟨c, hc, htcc⟩)
        · exact Or.inr (Or.inr (Or.inl ⟨b', cid, ctx, hmem, htc⟩))
      · rw [Nat.zero_add] at htf hsub
        refine Or.inr (Or.inr (Or.inr (Or.inl ⟨i, f, b', hidx, htf, ?_⟩)))
        intro t' ht'
        have := hsub t' ht'
        have hmemF : t' ∈ (stateAfterFacts uuid now m).g := by
          rw [stateAfterFacts, translate_facts_g, uuidCtr_stateAfterContexts]
          exact this
        exact mem_final_of_afterFacts uuid now m hmemF
    · refine Or.inr (Or.inr (Or.inr (Or.inr (Or.inl ⟨u', a, l, r, hrt, ?_⟩))))
      intro t' ht'
      exact translate_taxonomy_mono _ _ (hrsub t' ht')
  · exact Or.inr (Or.inr (Or.inr (Or.inr (Or.inr hshape))))

theorem factTriples_pred_mem (fu : Node) (b : Nat) (f : Fact) (t : Triple)
    (ht : t ∈ (factTriples fu b f).1) :
    t.p ∈ [rdf_type, nsGet xbrlNS "hasFact", nsGet xbrlNS "concept", nsGet xbrlNS "context",
           nsGet xbrlNS "value", nsGet xbrlNS "unit", nsGet xbrlNS "measure",
           nsGet xbrlNS "precision", nsGet xbrlNS "decimals", nsGet xbrlNS "footnote",
           nsGet xbrlNS "text"] := by
  rcases factTriples_cases fu b f t ht with rfl | rfl | ⟨q, hq, rfl⟩ | ⟨cid, hcid, rfl⟩ |
    ⟨v, rfl⟩ | ⟨v, rfl⟩ | ⟨k, rfl⟩ | ⟨k, rfl⟩ | ⟨k, hs, hp'⟩ | ⟨p', hp', rfl⟩ |
    ⟨hpn, d', hd', rfl⟩ | ⟨k, rfl⟩ | ⟨k, rfl⟩ | ⟨k, s, rfl⟩
  · simp +decide
  · simp +decide
  · simp +decide
  · simp +decide
  · simp +decide
  · simp +decide
  · simp +decide
  · simp +decide
  · rw [hp']; decide
  · simp +decide
  · simp +decide
  · simp +decide
  · simp +decide
  · simp +decide

theorem factTriples_type_objects (fu : Node) (b : Nat) (f : Fact) (t : Triple)
    (ht : t ∈ (factTriples fu b f).1) (hp : t.p = rdf_type) :
    t.o ∈ [nsGet xbrlNS "Fact", nsGet xbrlNS "Unit", nsGet xbrlNS "Footnote"] := by
  rcases factTriples_cases fu b f t ht with rfl | rfl | ⟨q, hq, rfl⟩ | ⟨cid, hcid, rfl⟩ |
    ⟨v, rfl⟩ | ⟨v, rfl⟩ | ⟨k, rfl⟩ | ⟨k, rfl⟩ | ⟨k, hs, hp'⟩ | ⟨p', hp', rfl⟩ |
    ⟨hpn, d', hd', rfl⟩ | ⟨k, rfl⟩ | ⟨k, rfl⟩ | ⟨k, s, rfl⟩
  · simp +decide
  · simp +decide at hp
  · simp +decide at hp
  · simp +decide at hp
  · simp +decide at hp
  · simp +decide at hp
  · simp +decide at hp
  · simp +decide
  · rw [hp'] at hp; simp +decide at hp
  · simp +decide at hp
  · simp +decide at hp
  · simp +decide at hp
  · simp +decide
  · simp +decide at hp

theorem factTriples_factType_subject (fu : Node) (b : Nat) (f : Fact) (t : Triple)
    (ht : t ∈ (factTriples fu b f).1) (hp : t.p = rdf_type)
    (ho : t.o = nsGet xbrlNS "Fact") : t = ⟨fu, rdf_type, nsGet xbrlNS "Fact"⟩ := by
  rcases factTriples_cases fu b f t ht with rfl | rfl | ⟨q, hq, rfl⟩ | ⟨cid, hcid, rfl⟩ |
    ⟨v, rfl⟩ | ⟨v, rfl⟩ | ⟨k, rfl⟩ | ⟨k, rfl⟩ | ⟨k, hs, hp'⟩ | ⟨p', hp', rfl⟩ |
    ⟨hpn, d', hd', rfl⟩ | ⟨k, rfl⟩ | ⟨k, rfl⟩ | ⟨k, s, rfl⟩
  · rfl
  · simp +decide at hp
  · simp +decide at hp
  · simp +decide at hp
  · simp +decide at hp
  · simp +decide at hp
  · simp +decide at hp
  · simp +decide at ho
  · rw [hp'] at hp; simp +decide at hp
  · simp +decide at hp
  · simp +decide at hp
  · simp +decide at hp
  · simp +decide at ho
  · simp +decide at hp

theorem relTriples_hasRel_mem (ru : Node) (arcrole linkrole : String) (r : Rel) :
    (⟨doc_uri, nsGet xbrlNS "hasRelationship", ru⟩ : Triple) ∈ relTriples ru arcrole linkrole r := by
  simp [relTriples]

theorem afterFacts_mem_cases (uuid : Nat → String) (now : String) (m : XBRLModel)
    {t : Triple} (ht : t ∈ (stateAfterFacts uuid now m).g) :
    t ∈ docTriples now ∨
    (∃ c ∈ oksBefore m.qnameConcepts, t ∈ conceptTriples c) ∨
    (∃ b' cid ctx, (cid, ctx) ∈ oksBefore m.contexts ∧ t ∈ (contextTriples b' cid ctx).1) ∨
    (∃ i f b', (oksBefore m.facts)[i]? = some f ∧
      t ∈ (factTriples (nsGet factNS (uuid i)) b' f).1) := by
  rw [stateAfterFacts, translate_facts_g, uuidCtr_stateAfterContexts] at ht
  rcases runFactItems_mem uuid m.facts ht with h3 | ⟨i, f, b', hidx, htf, hsub⟩
  · rw [stateAfterContexts, translate_contexts_g] at h3
    rcases runContextItems_mem m.contexts h3 with h4 | ⟨b', cid, ctx, hmem, htc⟩
    · rw [stateAfterConcepts, translate_concepts_g] at h4
      rcases (runConceptItems_mem m.qnameConcepts _ _).mp h4 with h5 | ⟨c, hc, htcc⟩
      · rw [initState_g] at h5
        exact Or.inl h5
      · exact Or.inr (Or.inl ⟨c, hc, htcc⟩)
    · exact Or.inr (Or.inr (Or.inl ⟨b', cid, ctx, hmem, htc⟩))
  · rw [Nat.zero_add] at htf
    exact Or.inr (Or.inr (Or.inr ⟨i, f, b', hidx, htf⟩))

theorem translate_relationships_zero (uuid : Nat → String) (st : TransState)
    {rsets : Option (List (String × List (String × List (Except String Rel))))}
    (hz : rsets = none ∨ ∃ sets, rsets = some sets ∧
      ∀ al ∈ sets, ∀ lr ∈ al.2, lr.2 = ([] : List (Except String Rel))) :
    translate_relationships uuid st rsets = st := by
  rcases hz with rfl | ⟨sets, rfl, hz⟩
  · rfl
  · show (match runArcroleItems uuid st.g st.uuidCtr sets with
      | (g, u, none) => { st with g := g, uuidCtr := u }
      | (g, u, some e) =>
        { st with g := g, uuidCtr := u,
                  printed := st.printed ++ ["Error translating relationships: " ++ e] }) = st
    rw [runArcroleItems_empty uuid hz st.g st.uuidCtr]

theorem runRelItems_backward (uuid : Nat → String) (arcrole linkrole : String)
    {items : List (Except String Rel)}
    (hall : ∀ x ∈ items, ∃ v, x = Except.ok v) {r : Rel} (hr : Except.ok r ∈ items) :
    ∀ g u, ∃ u', ∀ t ∈ relTriples (nsGet relNS (uuid u')) arcrole linkrole r,
      t ∈ (runRelItems uuid arcrole linkrole g u items).1 := by
  induction items with
  | nil => cases hr
  | cons x rest ih =>
    intro g u
    obtain ⟨v, rfl⟩ := hall x (List.mem_cons_self x rest)
    rcases List.mem_cons.mp hr with he | hm
    · obtain rfl := Except.ok.inj he
      refine ⟨u, fun t ht => ?_⟩
      exact runRelItems_mono uuid arcrole linkrole rest (Graph.mem_addAll.mpr (Or.inr ht))
    · exact ih (fun y hy => hall y (List.mem_cons_of_mem _ hy)) hm _ _

theorem runLinkroleItems_backward (uuid : Nat → String) (arcrole : String)
    {items : List (String × List (Except String Rel))}
    (hall : ∀ lr ∈ items, ∀ x ∈ lr.2, ∃ v, x = Except.ok v)
    {linkrole : String} {rl : List (Except String Rel)} {r : Rel}
    (hmem : (linkrole, rl) ∈ items) (hr : Except.ok r ∈ rl) :
    ∀ g u, ∃ u', ∀ t ∈ relTriples (nsGet relNS (uuid u')) arcrole linkrole r,
      t ∈ (runLinkroleItems uuid arcrole g u items).1 := by
  induction items with
  | nil => cases hmem
  | cons x rest ih =>
    intro g u
    obtain ⟨l0, rl0⟩ := x
    have hnone := runRelItems_err_all_ok
      (hall (l0, rl0) (List.mem_cons_self _ _)) uuid arcrole l0 g u
    rcases hrr : runRelItems uuid arcrole l0 g u rl0 with ⟨g', u', e'⟩
    rw [hrr] at hnone
    simp only at hnone
    subst hnone
    rcases List.mem_cons.mp hmem with he | hm
    · obtain ⟨h1, h2⟩ := Prod.mk.injEq .. ▸ he
      subst h1
      subst h2
      obtain ⟨u'', hsub⟩ := runRelItems_backward uuid arcrole linkrole
        (hall (linkrole, rl) (List.mem_cons_self _ _)) hr g u
      refine ⟨u'', fun t ht => ?_⟩
      have := hsub t ht
      rw [hrr] at this
      replace this : t ∈ g' := this
      show t ∈ (match runRelItems uuid arcrole linkrole g u rl with
        | (g', u', none) => runLinkroleItems uuid arcrole g' u' rest
        | (g', u', some e) => (g', u', some e)).1
      rw [hrr]
      exact runLinkroleItems_mono uuid arcrole rest this
    · obtain ⟨u'', hsub⟩ := ih (fun lr hlr => hall lr (List.mem_cons_of_mem _ hlr)) hm g' u'
      refine ⟨u'', fun t ht => ?_⟩
      have := hsub t ht
      show t ∈ (match runRelItems uuid arcrole l0 g u rl0 with
        | (g', u', none) => runLinkroleItems uuid arcrole g' u' rest
        | (g', u', some e) => (g', u', some e)).1
      rw [hrr]
      exact this

theorem runArcroleItems_backward (uuid : Nat → String)
    {items : List (String × List (String × List (Except String Rel)))}
    (hall : ∀ al ∈ items, ∀ lr ∈ al.2, ∀ x ∈ lr.2, ∃ v, x = Except.ok v)
    {arcrole : String} {ls : List (String × List (Except String Rel))}
    {linkrole : String} {rl : List (Except String Rel)} {r : Rel}
    (hmem : (arcrole, ls) ∈ items) (hmem2 : (linkrole, rl) ∈ ls) (hr : Except.ok r ∈ rl) :
    ∀ g u, ∃ u', ∀ t ∈ relTriples (nsGet relNS (uuid u')) arcrole linkrole r,
      t ∈ (runArcroleItems uuid g u items).1 := by
  induction items with
  | nil => cases hmem
  | cons x rest ih =>
    intro g u
    obtain ⟨a0, ls0⟩ := x
    have hnone := runLinkroleItems_err_all_ok
      (hall (a0, ls0) (List.mem_cons_self _ _)) uuid a0 g u
    rcases hrr : runLinkroleItems uuid a0 g u ls0 with ⟨g', u', e'⟩
    rw [hrr] at hnone
    simp only at hnone
    subst hnone
    rcases List.mem_cons.mp hmem with he | hm
    · obtain ⟨h1, h2⟩ := Prod.mk.injEq .. ▸ he
      subst h1
      subst h2
      obtain ⟨u'', hsub⟩ := runLinkroleItems_backward uuid arcrole
        (hall (arcrole, ls) (List.mem_cons_self _ _)) hmem2 hr g u
      refine ⟨u'', fun t ht => ?_⟩
      have := hsub t ht
      rw [hrr] at this
      replace this : t ∈ g' := this
      show t ∈ (match runLinkroleItems uuid arcrole g u ls with
        | (g', u', none) => runArcroleItems uuid g' u' rest
        | (g', u', some e) => (g', u', some e)).1
      rw [hrr]
      exact runArcroleItems_mono uuid rest this
    · obtain ⟨u'', hsub⟩ := ih (fun al hal => hall al (List.mem_cons_of_mem _ hal)) hm g' u'
      refine ⟨u'', fun t ht => ?_⟩
      have := hsub t ht
      show t ∈ (match runLinkroleItems uuid a0 g u ls0 with
        | (g', u', none) => runArcroleItems uuid g' u' rest
        | (g', u', some e) => (g', u', some e)).1
      rw [hrr]
      exact this

/- Claim theorems. -/

/-- A fixed injective uuid stream for concrete instantiations. -/
def sampleUuid : Nat → String := fun n => Nat.repr n

/-- C4: for every well-formed context object with period data (`hasPeriod`
set and one of the two period kinds flagged), the context pass produces a
period sub-node carrying exactly one of the two shapes {instant timestamp}
or {start + end timestamp pair} — never both, and never neither. -/
theorem c4_period_exactly_one_shape (b : Nat) (cid : String) (ctx : Context)
    (hp : ctx.hasPeriod = true)
    (hdata : ctx.isInstantPeriod = true ∨ ctx.isStartEndPeriod = true) :
    ∃ pn : Node,
      (⟨contextUri cid, nsGet xbrlNS "period", pn⟩ : Triple) ∈ (contextTriples b cid ctx).1 ∧
      (((⟨pn, nsGet xbrlNS "instant", Node.litTyped ctx.instantDatetime xsd_dateTime⟩ : Triple)
          ∈ (contextTriples b cid ctx).1 ∧
        (∀ t ∈ (contextTriples b cid ctx).1, t.p ≠ nsGet xbrlNS "startDate") ∧
        (∀ t ∈ (contextTriples b cid ctx).1, t.p ≠ nsGet xbrlNS "endDate")) ∨
       ((⟨pn, nsGet xbrlNS "startDate", Node.litTyped ctx.startDatetime xsd_dateTime⟩ : Triple)
          ∈ (contextTriples b cid ctx).1 ∧
        (⟨pn, nsGet xbrlNS "endDate", Node.litTyped ctx.endDatetime xsd_dateTime⟩ : Triple)
          ∈ (contextTriples b cid ctx).1 ∧
        (∀ t ∈ (contextTriples b cid ctx).1, t.p ≠ nsGet xbrlNS "instant"))) := by
  refine ⟨Node.bnode ((contextEntityTriples (contextUri cid) b ctx).2), ?_, ?_⟩
  · simp [contextTriples, contextPeriodTriples, hp]
  · by_cases hi : ctx.isInstantPeriod = true
    · refine Or.inl ⟨?_, ?_, ?_⟩
      · simp [contextTriples, contextPeriodTriples, hp, hi]
      · intro t ht hpe
        have h4 := (contextTriples_cases b cid ctx t ht).2.2.2 (Or.inl hpe)
        exact absurd (hi.symm.trans h4.1) (by decide)
      · intro t ht hpe
        have h4 := (contextTriples_cases b cid ctx t ht).2.2.2 (Or.inr hpe)
        exact absurd (hi.symm.trans h4.1) (by decide)
    · have hse : ctx.isStartEndPeriod = true := hdata.resolve_left hi
      have hi' : ctx.isInstantPeriod = false := by
        cases h : ctx.isInstantPeriod
        · rfl
        · exact absurd h hi
      refine Or.inr ⟨?_, ?_, ?_⟩
      · simp [contextTriples, contextPeriodTriples, hp, hi', hse]
      · simp [contextTriples, contextPeriodTriples, hp, hi', hse]
      · intro t ht hpe
        have h3 := (contextTriples_cases b cid ctx t ht).2.2.1 hpe
        exact absurd (hi'.symm.trans h3) (by decide)

/-- A sample instant-period context used to instantiate C4. -/
def c4Context : Context :=
  { entityIdentifier := none, hasPeriod := true, isInstantPeriod := true,
    isStartEndPeriod := false, instantDatetime := "2024-12-31",
    startDatetime := "", endDatetime := "", qnameDims := none }

theorem c4_period_exactly_one_shape_witness :
    ∃ pn : Node,
      (⟨contextUri "FY2024", nsGet xbrlNS "period", pn⟩ : Triple)
        ∈ (contextTriples 0 "FY2024" c4Context).1 ∧
      (((⟨pn, nsGet xbrlNS "instant", Node.litTyped c4Context.instantDatetime xsd_dateTime⟩ : Triple)
          ∈ (contextTriples 0 "FY2024" c4Context).1 ∧
        (∀ t ∈ (contextTriples 0 "FY2024" c4Context).1, t.p ≠ nsGet xbrlNS "startDate") ∧
        (∀ t ∈ (contextTriples 0 "FY2024" c4Context).1, t.p ≠ nsGet xbrlNS "endDate")) ∨
       ((⟨pn, nsGet xbrlNS "startDate", Node.litTyped c4Context.startDatetime xsd_dateTime⟩ : Triple)
          ∈ (contextTriples 0 "FY2024" c4Context).1 ∧
        (⟨pn, nsGet xbrlNS "endDate", Node.litTyped c4Context.endDatetime xsd_dateTime⟩ : Triple)
          ∈ (contextTriples 0 "FY2024" c4Context).1 ∧
        (∀ t ∈ (contextTriples 0 "FY2024" c4Context).1, t.p ≠ nsGet xbrlNS "instant"))) :=
  c4_period_exactly_one_shape 0 "FY2024" c4Context rfl (Or.inl rfl)

/-- C5: for every numeric fact carrying a value and both a non-null
precision and a non-null decimals attribute, the facts pass emits the
precision triple and emits no decimals triple at all (precision takes
priority). -/
theorem c5_precision_priority (fu : Node) (b : Nat) (f : Fact) (v p : String)
    (hv : f.value = some v) (hn : f.isNumeric = true) (hp : f.precision = some p)
    (hd : ∃ d, f.decimals = some d) :
    (⟨fu, nsGet xbrlNS "precision", Node.litStr p⟩ : Triple) ∈ (factTriples fu b f).1 ∧
    ∀ t ∈ (factTriples fu b f).1, t.p ≠ nsGet xbrlNS "decimals" := by
  constructor
  · simp [factTriples, factValueTriples, factAccuracyTriples, hv, hn, hp]
  · intro t ht
    rcases factTriples_cases fu b f t ht with rfl | rfl | ⟨q, hq, rfl⟩ | ⟨cid, hcid, rfl⟩ |
      ⟨v', rfl⟩ | ⟨v', rfl⟩ | ⟨k, rfl⟩ | ⟨k, rfl⟩ | ⟨k, hs, hp'⟩ | ⟨p', hp', rfl⟩ |
      ⟨hpn, d', hd', rfl⟩ | ⟨k, rfl⟩ | ⟨k, rfl⟩ | ⟨k, s, rfl⟩
    · simp +decide
    · simp +decide
    · simp +decide
    · simp +decide
    · simp +decide
    · simp +decide
    · simp +decide
    · simp +decide
    · rw [hp']; decide
    · simp +decide
    · simp [hp] at hpn
    · simp +decide
    · simp +decide
    · simp +decide

/-- A numeric fact carrying both precision and decimals, for instantiating
C5. -/
def c5Fact : Fact :=
  { concept := none, context := none, value := some "500", isNumeric := true,
    unit := none, precision := some "2", decimals := some "-6", footnotes := none }

theorem c5_precision_priority_witness :
    (⟨Node.bnode 0, nsGet xbrlNS "precision", Node.litStr "2"⟩ : Triple)
      ∈ (factTriples (Node.bnode 0) 1 c5Fact).1 ∧
    ∀ t ∈ (factTriples (Node.bnode 0) 1 c5Fact).1, t.p ≠ nsGet xbrlNS "decimals" :=
  c5_precision_priority (Node.bnode 0) 1 c5Fact "500" "2" rfl rfl rfl ⟨"-6", rfl⟩

/-- C6: `save_rdf_graph` serializes only for the four supported formats:
with a non-empty graph and filename, any other format string raises the
unsupported-format error; an empty graph or empty filename raises the
corresponding invalid-argument error; and a written result implies all three
checks passed, with the file written in exactly the requested format. -/
theorem c6_save_rdf_graph_format_gating (g : Graph) (filename fmt : String) :
    (g ≠ [] → filename ≠ "" → fmt ∉ supportedFormats →
      save_rdf_graph g filename fmt = SaveResult.raised ("Unsupported format: " ++ fmt)) ∧
    (g = [] → save_rdf_graph g filename fmt = SaveResult.raised "RDF graph cannot be None") ∧
    (g ≠ [] → filename = "" →
      save_rdf_graph g filename fmt = SaveResult.raised "Output filename cannot be None") ∧
    (∀ fn fm, save_rdf_graph g filename fmt = SaveResult.written fn fm →
      g ≠ [] ∧ filename ≠ "" ∧ fmt ∈ supportedFormats ∧ fn = filename ∧ fm = fmt) := by
  refine ⟨?_, ?_, ?_, ?_⟩
  · intro hg hf hfmt
    simp [save_rdf_graph, hg, hf, hfmt]
  · intro hg
    simp [save_rdf_graph, hg]
  · intro hg hf
    simp [save_rdf_graph, hg, hf]
  · intro fn fm h
    by_cases hg : g = []
    · simp [save_rdf_graph, hg] at h
    · by_cases hf : filename = ""
      · simp [save_rdf_graph, hg, hf] at h
      · by_cases hfmt : fmt ∈ supportedFormats
        · simp [save_rdf_graph, hg, hf, hfmt] at h
          exact ⟨hg, hf, hfmt, h.1.symm, h.2.symm⟩
        · simp [save_rdf_graph, hg, hf, hfmt] at h

theorem c6_save_rdf_graph_format_gating_witness :
    save_rdf_graph (docTriples "2024-01-01T00:00:00") "out.ttl" "csv"
      = SaveResult.raised ("Unsupported format: " ++ "csv") ∧
    save_rdf_graph ([] : Graph) "out.ttl" "turtle"
      = SaveResult.raised "RDF graph cannot be None" ∧
    save_rdf_graph (docTriples "2024-01-01T00:00:00") "" "turtle"
      = SaveResult.raised "Output filename cannot be None" :=
  ⟨(c6_save_rdf_graph_format_gating (docTriples "2024-01-01T00:00:00") "out.ttl" "csv").1
      (by decide) (by decide) (by decide),
   (c6_save_rdf_graph_format_gating ([] : Graph) "out.ttl" "turtle").2.1 rfl,
   (c6_save_rdf_graph_format_gating (docTriples "2024-01-01T00:00:00") "" "turtle").2.2.1
      (by decide) rfl⟩

/-- C8: concept subject URIs are minted from the local name only: two
concepts whose qualified names share a local name but differ in namespace
receive the same subject URI, and both concepts' type triples land on that
single shared subject of the final graph (the collision is not
disambiguated). -/
theorem c8_local_name_collision (uuid : Nat → String) (now : String) (m : XBRLModel)
    (c1 c2 : Concept)
    (hln : c1.qname.localName = c2.qname.localName)
    (hns : c1.qname.namespaceURI ≠ c2.qname.namespaceURI)
    (h1 : c1 ∈ oksBefore m.qnameConcepts) (h2 : c2 ∈ oksBefore m.qnameConcepts) :
    conceptUri c1 = conceptUri c2 ∧
    (⟨conceptUri c1, rdf_type, nsGet xbrlNS "Concept"⟩ : Triple) ∈ (xbrl_to_rdf uuid now m).g ∧
    (⟨conceptUri c2, rdf_type, nsGet xbrlNS "Concept"⟩ : Triple) ∈ (xbrl_to_rdf uuid now m).g := by
  have huri : conceptUri c1 = conceptUri c2 := by
    simp only [conceptUri, hln]
  refine ⟨huri, ?_, ?_⟩
  · have hmem : (⟨conceptUri c1, rdf_type, nsGet xbrlNS "Concept"⟩ : Triple)
        ∈ (stateAfterConcepts now m).g := by
      rw [stateAfterConcepts, translate_concepts_g]
      exact (runConceptItems_mem m.qnameConcepts _ _).mpr
        (Or.inr ⟨c1, h1, by simp [conceptTriples]⟩)
    exact mem_final_of_afterContexts uuid now m (translate_contexts_mono _ _ hmem)
  · have hmem : (⟨conceptUri c2, rdf_type, nsGet xbrlNS "Concept"⟩ : Triple)
        ∈ (stateAfterConcepts now m).g := by
      rw [stateAfterConcepts, translate_concepts_g]
      exact (runConceptItems_mem m.qnameConcepts _ _).mpr
        (Or.inr ⟨c2, h2, by simp [conceptTriples]⟩)
    exact mem_final_of_afterContexts uuid now m (translate_contexts_mono _ _ hmem)

/-- First of two concepts sharing a local name across namespaces (for C8). -/
def c8ConceptA : Concept :=
  { qname := { namespaceURI := "http://taxonomy-a.example.com/", localName := "Assets" },
    label := none, type := none, periodType := none, balance := none,
    isAbstract := none, substitutionGroup := none }

/-- Second of two concepts sharing a local name across namespaces (for C8). -/
def c8ConceptB : Concept :=
  { qname := { namespaceURI := "http://taxonomy-b.example.com/", localName := "Assets" },
    label := none, type := none, periodType := none, balance := none,
    isAbstract := none, substitutionGroup := none }

/-- A model holding the two colliding concepts (for C8). -/
def c8Model : XBRLModel :=
  { qnameConcepts := [Except.ok c8ConceptA, Except.ok c8ConceptB],
    contexts := [], facts := [], relationshipSets := none, taxonomy := none }

theorem c8_local_name_collision_witness :
    conceptUri c8ConceptA = conceptUri c8ConceptB ∧
    (⟨conceptUri c8ConceptA, rdf_type, nsGet xbrlNS "Concept"⟩ : Triple)
      ∈ (xbrl_to_rdf sampleUuid "2024-01-01T00:00:00" c8Model).g ∧
    (⟨conceptUri c8ConceptB, rdf_type, nsGet xbrlNS "Concept"⟩ : Triple)
      ∈ (xbrl_to_rdf sampleUuid "2024-01-01T00:00:00" c8Model).g :=
  c8_local_name_collision sampleUuid "2024-01-01T00:00:00" c8Model c8ConceptA c8ConceptB
    rfl (by decide) (by decide) (by decide)

/-- C9: the emptiness check of `save_rdf_graph` is the graph's truthiness
(its triple count): a graph object holding zero triples is rejected with the
message reserved for a missing graph, while a non-empty graph with a
non-empty filename and supported format always reaches serialization. -/
theorem c9_empty_graph_truthiness (g : Graph) (filename fmt : String) :
    save_rdf_graph [] filename fmt = SaveResult.raised "RDF graph cannot be None" ∧
    (g ≠ [] → filename ≠ "" → fmt ∈ supportedFormats →
      save_rdf_graph g filename fmt = SaveResult.written filename fmt) := by
  refine ⟨by simp [save_rdf_graph], ?_⟩
  intro hg hf hfmt
  simp [save_rdf_graph, hg, hf, hfmt]

theorem c9_empty_graph_truthiness_witness :
    save_rdf_graph [] "out.ttl" "turtle" = SaveResult.raised "RDF graph cannot be None" ∧
    save_rdf_graph (docTriples "2024-01-01T00:00:00") "out.ttl" "turtle"
      = SaveResult.written "out.ttl" "turtle" :=
  ⟨(c9_empty_graph_truthiness (docTriples "2024-01-01T00:00:00") "out.ttl" "turtle").1,
   (c9_empty_graph_truthiness (docTriples "2024-01-01T00:00:00") "out.ttl" "turtle").2
      (by decide) (by decide) (by decide)⟩

/-- The only triple of the final graph whose predicate is `dcterms:created`
is the document-root timestamp triple. -/
theorem final_created_eq (uuid : Nat → String) (now : String) (m : XBRLModel)
    {t : Triple} (ht : t ∈ (xbrl_to_rdf uuid now m).g) (hp : t.p = dcterms_created) :
    t = ⟨doc_uri, dcterms_created, Node.litTyped now xsd_dateTime⟩ := by
  rcases xbrl_mem_cases uuid now m ht with hdoc | ⟨c, hc, htc⟩ |
    ⟨b', cid, ctx, hmem, htc⟩ | ⟨i, f, b', hidx, htf, hsub⟩ |
    ⟨u', a, l, r, hrt, hsub⟩ | htax
  · simp only [docTriples, List.mem_cons, List.not_mem_nil, or_false] at hdoc
    rcases hdoc with rfl | rfl
    · simp +decide at hp
    · rfl
  · have h2 := (conceptTriples_cases c t htc).2.2
    rw [hp] at h2
    exact absurd h2 (by decide)
  · have h2 := (contextTriples_cases b' cid ctx t htc).2.1
    rw [hp] at h2
    exact absurd h2 (by decide)
  · have h2 := factTriples_pred_mem _ _ _ t htf
    rw [hp] at h2
    exact absurd h2 (by decide)
  · have h2 := (relTriples_cases _ a l r t hrt).2.2
    rw [hp] at h2
    exact absurd h2 (by decide)
  · have h2 := htax.2
    rw [hp] at h2
    exact absurd h2 (by decide)

/-- C2 (amended): `xbrl_to_rdf` is not purely functional over the model
alone — it also reads the ambient clock (`datetime.now()`) and the uuid
stream.  For every model and uuid stream, two calls at different clock
readings produce different triple sets: the dependence on the ambient
inputs is real, not just possible. -/
theorem c2_clock_dependence (uuid : Nat → String) (m : XBRLModel) (n1 n2 : String)
    (hne : n1 ≠ n2) :
    (xbrl_to_rdf uuid n1 m).g ≠ (xbrl_to_rdf uuid n2 m).g := by
  intro heq
  have h1 : (⟨doc_uri, dcterms_created, Node.litTyped n1 xsd_dateTime⟩ : Triple)
      ∈ (xbrl_to_rdf uuid n1 m).g := by
    apply mem_final_of_init
    rw [initState_g]
    simp [docTriples]
  rw [heq] at h1
  have h2 := final_created_eq uuid n2 m h1 rfl
  simp only [Triple.mk.injEq, Node.litTyped.injEq, true_and, and_true] at h2
  exact hne h2

/-- A model exposing no concepts, contexts, facts, relationships or
taxonomy (for C2 and C10). -/
def emptyModel : XBRLModel :=
  { qnameConcepts := [], contexts := [], facts := [],
    relationshipSets := none, taxonomy := none }

theorem c2_clock_dependence_witness :
    (xbrl_to_rdf sampleUuid "2024-01-01T00:00:00" emptyModel).g
      ≠ (xbrl_to_rdf sampleUuid "2024-01-02T00:00:00" emptyModel).g :=
  c2_clock_dependence sampleUuid emptyModel "2024-01-01T00:00:00" "2024-01-02T00:00:00"
    (by decide)

/-- C2 (counterexample to the original claim): two calls of `xbrl_to_rdf`
on the same model do not in general produce equal triple sets — here the
same model translated at two clock readings yields different graphs, so the
function is not purely functional over the input model. -/
theorem c2_not_model_functional :
    (xbrl_to_rdf sampleUuid "2024-01-01T00:00:00" emptyModel).g
      ≠ (xbrl_to_rdf sampleUuid "2024-01-02T00:00:00" emptyModel).g := by
  decide

/-- C10: for every model, the final graph holds the document-root type
triple `(company:document, rdf:type, xbrl:Instance)` and the
`dcterms:created` timestamp triple on the same subject — hence at least two
triples even for an empty model — and every fact-typed and
relationship-typed subject minted later is linked to the document root by a
`hasFact` / `hasRelationship` triple. -/
theorem c10_document_root (uuid : Nat → String) (now : String) (m : XBRLModel) :
    (⟨doc_uri, rdf_type, nsGet xbrlNS "Instance"⟩ : Triple) ∈ (xbrl_to_rdf uuid now m).g ∧
    (⟨doc_uri, dcterms_created, Node.litTyped now xsd_dateTime⟩ : Triple)
      ∈ (xbrl_to_rdf uuid now m).g ∧
    2 ≤ (xbrl_to_rdf uuid now m).g.length ∧
    (∀ t ∈ (xbrl_to_rdf uuid now m).g, t.p = rdf_type → t.o = nsGet xbrlNS "Fact" →
      (⟨doc_uri, nsGet xbrlNS "hasFact", t.s⟩ : Triple) ∈ (xbrl_to_rdf uuid now m).g) ∧
    (∀ t ∈ (xbrl_to_rdf uuid now m).g, t.p = rdf_type → t.o = nsGet xbrlNS "Relationship" →
      (⟨doc_uri, nsGet xbrlNS "hasRelationship", t.s⟩ : Triple) ∈ (xbrl_to_rdf uuid now m).g) := by
  have h1 : (⟨doc_uri, rdf_type, nsGet xbrlNS "Instance"⟩ : Triple)
      ∈ (xbrl_to_rdf uuid now m).g := by
    apply mem_final_of_init
    rw [initState_g]
    simp [docTriples]
  have h2 : (⟨doc_uri, dcterms_created, Node.litTyped now xsd_dateTime⟩ : Triple)
      ∈ (xbrl_to_rdf uuid now m).g := by
    apply mem_final_of_init
    rw [initState_g]
    simp [docTriples]
  refine ⟨h1, h2, two_le_length_of_mem h1 h2 (by simp +decide), ?_, ?_⟩
  · intro t ht hp ho
    rcases xbrl_mem_cases uuid now m ht with hdoc | ⟨c, hc, htc⟩ |
      ⟨b', cid, ctx, hmem, htc⟩ | ⟨i, f, b', hidx, htf, hsub⟩ |
      ⟨u', a, l, r, hrt, hsub⟩ | htax
    · simp only [docTriples, List.mem_cons, List.not_mem_nil, or_false] at hdoc
      rcases hdoc with rfl | rfl
      · simp +decide at ho
      · simp +decide at hp
    · have h3 := (conceptTriples_cases c t htc).2.1 hp
      rw [h3] at ho
      exact absurd ho (by decide)
    · have h3 := (contextTriples_cases b' cid ctx t htc).1 hp
      rw [ho] at h3
      exact absurd h3 (by decide)
    · have h3 := factTriples_factType_subject _ b' f t htf hp ho
      have hts : t.s = nsGet factNS (uuid i) := by rw [h3]
      rw [hts]
      exact hsub _ (factTriples_hasFact_mem _ b' f)
    · have h3 := (relTriples_cases _ a l r t hrt).1 hp
      rw [h3] at ho
      simp +decide at ho
    · have h3 := htax.1 hp
      rw [ho] at h3
      exact absurd h3 (by decide)
  · intro t ht hp ho
    rcases xbrl_mem_cases uuid now m ht with hdoc | ⟨c, hc, htc⟩ |
      ⟨b', cid, ctx, hmem, htc⟩ | ⟨i, f, b', hidx, htf, hsub⟩ |
      ⟨u', a, l, r, hrt, hsub⟩ | htax
    · simp only [docTriples, List.mem_cons, List.not_mem_nil, or_false] at hdoc
      rcases hdoc with rfl | rfl
      · simp +decide at ho
      · simp +decide at hp
    · have h3 := (conceptTriples_cases c t htc).2.1 hp
      rw [h3] at ho
      exact absurd ho (by decide)
    · have h3 := (contextTriples_cases b' cid ctx t htc).1 hp
      rw [ho] at h3
      exact absurd h3 (by decide)
    · have h3 := factTriples_type_objects _ b' f t htf hp
      rw [ho] at h3
      exact absurd h3 (by decide)
    · have h3 := (relTriples_cases _ a l r t hrt).1 hp
      have hts : t.s = nsGet relNS (uuid u') := by rw [h3]
      rw [hts]
      exact hsub _ (relTriples_hasRel_mem _ a l r)
    · have h3 := htax.1 hp
      rw [ho] at h3
      exact absurd h3 (by decide)

theorem c10_document_root_witness :
    (⟨doc_uri, rdf_type, nsGet xbrlNS "Instance"⟩ : Triple)
      ∈ (xbrl_to_rdf sampleUuid "2024-01-01T00:00:00" emptyModel).g ∧
    2 ≤ (xbrl_to_rdf sampleUuid "2024-01-01T00:00:00" emptyModel).g.length :=
  ⟨(c10_document_root sampleUuid "2024-01-01T00:00:00" emptyModel).1,
   (c10_document_root sampleUuid "2024-01-01T00:00:00" emptyModel).2.2.1⟩

/-- C7: for every model whose relationship-set index holds zero
relationships (no index at all, or only empty relationship lists), the
final graph contains no relationship-typed subject and no `hasRelationship`
link, and the translator's error list is empty after the relationships
pass. -/
theorem c7_zero_relationships (uuid : Nat → String) (now : String) (m : XBRLModel)
    (hz : m.relationshipSets = none ∨ ∃ sets, m.relationshipSets = some sets ∧
      ∀ al ∈ sets, ∀ lr ∈ al.2, lr.2 = ([] : List (Except String Rel))) :
    (∀ t ∈ (xbrl_to_rdf uuid now m).g,
      ¬(t.p = rdf_type ∧ t.o = nsGet xbrlNS "Relationship")) ∧
    (∀ t ∈ (xbrl_to_rdf uuid now m).g, t.p ≠ nsGet xbrlNS "hasRelationship") ∧
    (stateAfterRels uuid now m).errors = [] := by
  have hcollapse : stateAfterRels uuid now m = stateAfterFacts uuid now m := by
    rw [stateAfterRels]
    exact translate_relationships_zero uuid _ hz
  have hmemcases : ∀ {t : Triple}, t ∈ (xbrl_to_rdf uuid now m).g →
      t ∈ (stateAfterFacts uuid now m).g ∨ taxShape t := by
    intro t ht
    replace ht : t ∈ (translate_taxonomy (stateAfterRels uuid now m) m.taxonomy).g := ht
    rw [hcollapse] at ht
    exact translate_taxonomy_mem _ _ ht
  refine ⟨?_, ?_, errors_stateAfterRels uuid now m⟩
  · rintro t ht ⟨hp, ho⟩
    rcases hmemcases ht with h1 | htax
    · rcases afterFacts_mem_cases uuid now m h1 with hdoc | ⟨c, hc, htc⟩ |
        ⟨b', cid, ctx, hmem, htc⟩ | ⟨i, f, b', hidx, htf⟩
      · simp only [docTriples, List.mem_cons, List.not_mem_nil, or_false] at hdoc
        rcases hdoc with rfl | rfl
        · simp +decide at ho
        · simp +decide at hp
      · have h3 := (conceptTriples_cases c t htc).2.1 hp
        rw [h3] at ho
        exact absurd ho (by decide)
      · have h3 := (contextTriples_cases b' cid ctx t htc).1 hp
        rw [ho] at h3
        exact absurd h3 (by decide)
      · have h3 := factTriples_type_objects _ b' f t htf hp
        rw [ho] at h3
        exact absurd h3 (by decide)
    · have h3 := htax.1 hp
      rw [ho] at h3
      exact absurd h3 (by decide)
  · intro t ht hpe
    rcases hmemcases ht with h1 | htax
    · rcases afterFacts_mem_cases uuid now m h1 with hdoc | ⟨c, hc, htc⟩ |
        ⟨b', cid, ctx, hmem, htc⟩ | ⟨i, f, b', hidx, htf⟩
      · simp only [docTriples, List.mem_cons, List.not_mem_nil, or_false] at hdoc
        rcases hdoc with rfl | rfl
        · simp +decide at hpe
        · simp +decide at hpe
      · have h3 := (conceptTriples_cases c t htc).2.2
        rw [hpe] at h3
        exact absurd h3 (by decide)
      · have h3 := (contextTriples_cases b' cid ctx t htc).2.1
        rw [hpe] at h3
        exact absurd h3 (by decide)
      · have h3 := factTriples_pred_mem _ _ _ t htf
        rw [hpe] at h3
        exact absurd h3 (by decide)
    · have h3 := htax.2
      rw [hpe] at h3
      exact absurd h3 (by decide)

theorem c7_zero_relationships_witness :
    (∀ t ∈ (xbrl_to_rdf sampleUuid "2024-01-01T00:00:00" emptyModel).g,
      ¬(t.p = rdf_type ∧ t.o = nsGet xbrlNS "Relationship")) ∧
    (∀ t ∈ (xbrl_to_rdf sampleUuid "2024-01-01T00:00:00" emptyModel).g,
      t.p ≠ nsGet xbrlNS "hasRelationship") ∧
    (stateAfterRels sampleUuid "2024-01-01T00:00:00" emptyModel).errors = [] :=
  c7_zero_relationships sampleUuid "2024-01-01T00:00:00" emptyModel (Or.inl rfl)

/-- Number of triples of `g` with subject `s` and predicate `p`. -/
def linkCount (g : Graph) (s p : Node) : Nat :=
  g.countP (fun t => decide (t.s = s ∧ t.p = p))

/-- C3 (amended): for a fact reached by the facts pass (index `k` among the
facts processed before any failure) that carries a concept qname and a
context id, and under an injective uuid stream, the minted fact subject
carries exactly one `concept` link and exactly one `context` link in the
final graph; the concept link points to the URI minted for any same-named
concept by the earlier concepts pass and the context link to the URI the
contexts pass minted for that context id — provided such a concept and
context exist in the model.  (Without the provisos the original claim
fails: a fact with no concept/context attribute gets zero links, see the
counterexample.) -/
theorem c3_fact_links (uuid : Nat → String) (now : String) (m : XBRLModel)
    (k : Nat) (f : Fact) (cq : QName) (cid : String)
    (hinj : Function.Injective uuid)
    (hidx : (oksBefore m.facts)[k]? = some f)
    (hcq : f.concept = some cq)
    (hcid : f.context = some cid)
    (hcmem : ∃ c ∈ oksBefore m.qnameConcepts, c.qname.localName = cq.localName)
    (hxmem : ∃ ctx, (cid, ctx) ∈ oksBefore m.contexts) :
    linkCount (xbrl_to_rdf uuid now m).g (nsGet factNS (uuid k)) (nsGet xbrlNS "concept") = 1 ∧
    linkCount (xbrl_to_rdf uuid now m).g (nsGet factNS (uuid k)) (nsGet xbrlNS "context") = 1 ∧
    (⟨nsGet factNS (uuid k), nsGet xbrlNS "concept", nsGet conceptNS cq.localName⟩ : Triple)
      ∈ (xbrl_to_rdf uuid now m).g ∧
    (⟨nsGet factNS (uuid k), nsGet xbrlNS "context", contextUri cid⟩ : Triple)
      ∈ (xbrl_to_rdf uuid now m).g ∧
    (⟨nsGet conceptNS cq.localName, rdf_type, nsGet xbrlNS "Concept"⟩ : Triple)
      ∈ (stateAfterConcepts now m).g ∧
    (⟨contextUri cid, rdf_type, nsGet xbrlNS "Context"⟩ : Triple)
      ∈ (stateAfterContexts now m).g := by
  have hsf : (stateAfterFacts uuid now m).g
      = (runFactItems uuid (stateAfterContexts now m).g 0
          (stateAfterContexts now m).bnodeCtr m.facts).1 := by
    rw [stateAfterFacts, translate_facts_g, uuidCtr_stateAfterContexts]
  have hb := runFactItems_backward uuid m.facts
    (g := (stateAfterContexts now m).g) (u := 0)
    (b := (stateAfterContexts now m).bnodeCtr) hidx
  rw [Nat.zero_add] at hb
  have hcl : (⟨nsGet factNS (uuid k), nsGet xbrlNS "concept",
      nsGet conceptNS cq.localName⟩ : Triple) ∈ (xbrl_to_rdf uuid now m).g := by
    apply mem_final_of_afterFacts
    rw [hsf]
    exact hb.2.2.1 cq hcq
  have hxl : (⟨nsGet factNS (uuid k), nsGet xbrlNS "context",
      contextUri cid⟩ : Triple) ∈ (xbrl_to_rdf uuid now m).g := by
    apply mem_final_of_afterFacts
    rw [hsf]
    exact hb.2.2.2 cid hcid
  have hnd := xbrl_nodup uuid now m
  have huniqC : ∀ t ∈ (xbrl_to_rdf uuid now m).g,
      (t.s = nsGet factNS (uuid k) ∧ t.p = nsGet xbrlNS "concept") →
      t = ⟨nsGet factNS (uuid k), nsGet xbrlNS "concept", nsGet conceptNS cq.localName⟩ := by
    rintro t ht ⟨hs, hp⟩
    rcases xbrl_mem_cases uuid now m ht with hdoc | ⟨c, hc, htc⟩ |
      ⟨b', cid', ctx', hmem, htc⟩ | ⟨i, f', b', hidx', htf, hsub⟩ |
      ⟨u', a, l, r, hrt, hsub⟩ | htax
    · simp only [docTriples, List.mem_cons, List.not_mem_nil, or_false] at hdoc
      rcases hdoc with rfl | rfl
      · simp +decide at hp
      · simp +decide at hp
    · have h3 := (conceptTriples_cases c t htc).2.2
      rw [hp] at h3
      exact absurd h3 (by decide)
    · have h3 := (contextTriples_cases b' cid' ctx' t htc).2.1
      rw [hp] at h3
      exact absurd h3 (by decide)
    · rcases factTriples_cases _ b' f' t htf with rfl | rfl | ⟨q, hq, rfl⟩ |
        ⟨cid2, hcid2, rfl⟩ | ⟨v', rfl⟩ | ⟨v', rfl⟩ | ⟨j, rfl⟩ | ⟨j, rfl⟩ |
        ⟨j, hs', hp'⟩ | ⟨p', hp', rfl⟩ | ⟨hpn, d', hd', rfl⟩ | ⟨j, rfl⟩ |
        ⟨j, rfl⟩ | ⟨j, s, rfl⟩
      · simp +decide at hp
      · simp +decide at hp
      · replace hs : nsGet factNS (uuid i) = nsGet factNS (uuid k) := hs
        have hik : i = k := hinj (nsGet_inj hs)
        subst hik
        rw [hidx] at hidx'
        obtain rfl := Option.some.inj hidx'
        rw [hcq] at hq
        obtain rfl := Option.some.inj hq
        rfl
      · simp +decide at hp
      · simp +decide at hp
      · simp +decide at hp
      · simp +decide at hp
      · simp +decide at hp
      · rw [hp'] at hp
        simp +decide at hp
      · simp +decide at hp
      · simp +decide at hp
      · simp +decide at hp
      · simp +decide at hp
      · simp +decide at hp
    · have h3 := (relTriples_cases _ a l r t hrt).2.2
      rw [hp] at h3
      exact absurd h3 (by decide)
    · have h3 := htax.2
      rw [hp] at h3
      exact absurd h3 (by decide)
  have huniqX : ∀ t ∈ (xbrl_to_rdf uuid now m).g,
      (t.s = nsGet factNS (uuid k) ∧ t.p = nsGet xbrlNS "context") →
      t = ⟨nsGet factNS (uuid k), nsGet xbrlNS "context", contextUri cid⟩ := by
    rintro t ht ⟨hs, hp⟩
    rcases xbrl_mem_cases uuid now m ht with hdoc | ⟨c, hc, htc⟩ |
      ⟨b', cid', ctx', hmem, htc⟩ | ⟨i, f', b', hidx', htf, hsub⟩ |
      ⟨u', a, l, r, hrt, hsub⟩ | htax
    · simp only [docTriples, List.mem_cons, List.not_mem_nil, or_false] at hdoc
      rcases hdoc with rfl | rfl
      · simp +decide at hp
      · simp +decide at hp
    · have h3 := (conceptTriples_cases c t htc).2.2
      rw [hp] at h3
      exact absurd h3 (by decide)
    · have h3 := (contextTriples_cases b' cid' ctx' t htc).2.1
      rw [hp] at h3
      exact absurd h3 (by decide)
    · rcases factTriples_cases _ b' f' t htf with rfl | rfl | ⟨q, hq, rfl⟩ |
        ⟨cid2, hcid2, rfl⟩ | ⟨v', rfl⟩ | ⟨v', rfl⟩ | ⟨j, rfl⟩ | ⟨j, rfl⟩ |
        ⟨j, hs', hp'⟩ | ⟨p', hp', rfl⟩ | ⟨hpn, d', hd', rfl⟩ | ⟨j, rfl⟩ |
        ⟨j, rfl⟩ | ⟨j, s, rfl⟩
      · simp +decide at hp
      · simp +decide at hp
      · simp +decide at hp
      · replace hs : nsGet factNS (uuid i) = nsGet factNS (uuid k) := hs
        have hik : i = k := hinj (nsGet_inj hs)
        subst hik
        rw [hidx] at hidx'
        obtain rfl := Option.some.inj hidx'
        rw [hcid] at hcid2
        obtain rfl := Option.some.inj hcid2
        rfl
      · simp +decide at hp
      · simp +decide at hp
      · simp +decide at hp
      · simp +decide at hp
      · rw [hp'] at hp
        simp +decide at hp
      · simp +decide at hp
      · simp +decide at hp
      · simp +decide at hp
      · simp +decide at hp
      · simp +decide at hp
    · have h3 := (relTriples_cases _ a l r t hrt).2.2
      rw [hp] at h3
      exact absurd h3 (by decide)
    · have h3 := htax.2
      rw [hp] at h3
      exact absurd h3 (by decide)
  refine ⟨?_, ?_, hcl, hxl, ?_, ?_⟩
  · rw [linkCount]
    apply countP_eq_one_of_unique hnd hcl
    · exact decide_eq_true ⟨rfl, rfl⟩
    · intro b hb hpb
      exact huniqC b hb (of_decide_eq_true hpb)
  · rw [linkCount]
    apply countP_eq_one_of_unique hnd hxl
    · exact decide_eq_true ⟨rfl, rfl⟩
    · intro b hb hpb
      exact huniqX b hb (of_decide_eq_true hpb)
  · obtain ⟨c, hc, hlc⟩ := hcmem
    have hcu : conceptUri c = nsGet conceptNS cq.localName := by
      simp only [conceptUri, hlc]
    have hmemc : (⟨conceptUri c, rdf_type, nsGet xbrlNS "Concept"⟩ : Triple)
        ∈ (stateAfterConcepts now m).g := by
      rw [stateAfterConcepts, translate_concepts_g]
      exact (runConceptItems_mem m.qnameConcepts _ _).mpr
        (Or.inr ⟨c, hc, by simp [conceptTriples]⟩)
    rw [hcu] at hmemc
    exact hmemc
  · obtain ⟨ctx, hctx⟩ := hxmem
    rw [stateAfterContexts, translate_contexts_g]
    exact runContextItems_type_backward m.contexts hctx

/-- A fact carrying neither a concept nor a context attribute (for the C3
counterexample). -/
def c3NoLinkFact : Fact :=
  { concept := none, context := none, value := none, isNumeric := false,
    unit := none, precision := none, decimals := none, footnotes := none }

/-- A model whose single fact has no concept and no context (for the C3
counterexample). -/
def c3NoLinkModel : XBRLModel :=
  { qnameConcepts := [], contexts := [], facts := [Except.ok c3NoLinkFact],
    relationshipSets := none, taxonomy := none }

/-- C3 (counterexample to the original claim): the facts pass mints a fact
subject even for a fact with no concept and no context attribute, and that
subject then carries zero `concept` links and zero `context` links — not
exactly one of each. -/
theorem c3_fact_without_links :
    (⟨nsGet factNS (sampleUuid 0), rdf_type, nsGet xbrlNS "Fact"⟩ : Triple)
      ∈ (xbrl_to_rdf sampleUuid "2024-01-01T00:00:00" c3NoLinkModel).g ∧
    linkCount (xbrl_to_rdf sampleUuid "2024-01-01T00:00:00" c3NoLinkModel).g
      (nsGet factNS (sampleUuid 0)) (nsGet xbrlNS "concept") = 0 ∧
    linkCount (xbrl_to_rdf sampleUuid "2024-01-01T00:00:00" c3NoLinkModel).g
      (nsGet factNS (sampleUuid 0)) (nsGet xbrlNS "context") = 0 := by
  decide

/-- An injective uuid stream (uuid draws never collide), for instantiating
C3. -/
def injUuid : Nat → String := fun n => String.mk (List.replicate n 'u')

/-- The concept referenced by the C3 witness fact. -/
def c3Concept : Concept :=
  { qname := { namespaceURI := "http://fasb.org/us-gaap/2024", localName := "Revenues" },
    label := none, type := none, periodType := none, balance := none,
    isAbstract := none, substitutionGroup := none }

/-- The context referenced by the C3 witness fact. -/
def c3Context : Context :=
  { entityIdentifier := none, hasPeriod := true, isInstantPeriod := false,
    isStartEndPeriod := true, instantDatetime := "",
    startDatetime := "2024-01-01", endDatetime := "2024-12-31", qnameDims := none }

/-- A fact linking to `c3Concept` and `c3Context` (for the C3 witness). -/
def c3Fact : Fact :=
  { concept := some ⟨"http://fasb.org/us-gaap/2024", "Revenues"⟩,
    context := some "FY2024", value := some "500", isNumeric := true,
    unit := none, precision := none, decimals := some "-6", footnotes := none }

/-- A model with one concept, one context and one fully linked fact (for
the C3 witness). -/
def c3Model : XBRLModel :=
  { qnameConcepts := [Except.ok c3Concept],
    contexts := [Except.ok ("FY2024", c3Context)],
    facts := [Except.ok c3Fact],
    relationshipSets := none, taxonomy := none }

theorem c3_fact_links_witness :
    linkCount (xbrl_to_rdf injUuid "2024-01-01T00:00:00" c3Model).g
      (nsGet factNS (injUuid 0)) (nsGet xbrlNS "concept") = 1 ∧
    linkCount (xbrl_to_rdf injUuid "2024-01-01T00:00:00" c3Model).g
      (nsGet factNS (injUuid 0)) (nsGet xbrlNS "context") = 1 := by
  have h := c3_fact_links injUuid "2024-01-01T00:00:00" c3Model 0 c3Fact
    ⟨"http://fasb.org/us-gaap/2024", "Revenues"⟩ "FY2024"
    (by
      intro a b hab
      have hd : List.replicate a 'u' = List.replicate b 'u' := congrArg String.data hab
      have hl := congrArg List.length hd
      simpa using hl)
    rfl rfl rfl ⟨c3Concept, by decide, rfl⟩ ⟨c3Context, by decide⟩
  exact ⟨h.1, h.2.1⟩

/-- C1 (amended): pass isolation holds for the graph and for control flow,
but not for the error list.  If concept iteration raises on the third item
(and the remaining collections iterate cleanly), the partial concept output
is kept, the contexts, facts and relationships passes still run and
populate the graph — yet the accumulated error list stays empty: the
failure is only printed to the console.  Only the taxonomy pass appends to
`self.errors`. -/
theorem c1_pass_isolation (uuid : Nat → String) (now : String) (m : XBRLModel)
    (ca cb : Concept) (e : String) (rest : List (Except String Concept))
    (hcon : m.qnameConcepts = Except.ok ca :: Except.ok cb :: Except.error e :: rest)
    (hctx : ∀ x ∈ m.contexts, ∃ v, x = Except.ok v)
    (hfacts : ∀ x ∈ m.facts, ∃ v, x = Except.ok v)
    (hrels : m.relationshipSets = none ∨ ∃ sets, m.relationshipSets = some sets ∧
      ∀ al ∈ sets, ∀ lr ∈ al.2, ∀ x ∈ lr.2, ∃ v, x = Except.ok v)
    (htax : m.taxonomy = none) :
    (∀ t ∈ conceptTriples ca, t ∈ (xbrl_to_rdf uuid now m).g) ∧
    (∀ t ∈ conceptTriples cb, t ∈ (xbrl_to_rdf uuid now m).g) ∧
    (xbrl_to_rdf uuid now m).errors = [] ∧
    (xbrl_to_rdf uuid now m).printed = ["Error translating concepts: " ++ e] ∧
    (∀ cid ctx, Except.ok (cid, ctx) ∈ m.contexts →
      (⟨contextUri cid, rdf_type, nsGet xbrlNS "Context"⟩ : Triple)
        ∈ (xbrl_to_rdf uuid now m).g) ∧
    (∀ i f, (oksBefore m.facts)[i]? = some f →
      (⟨nsGet factNS (uuid i), rdf_type, nsGet xbrlNS "Fact"⟩ : Triple)
        ∈ (xbrl_to_rdf uuid now m).g) ∧
    (∀ sets arcrole ls linkrole rl r, m.relationshipSets = some sets →
      (arcrole, ls) ∈ sets → (linkrole, rl) ∈ ls → Except.ok r ∈ rl →
      ∃ u', ∀ t ∈ relTriples (nsGet relNS (uuid u')) arcrole linkrole r,
        t ∈ (xbrl_to_rdf uuid now m).g) := by
  have hrun : runConceptItems (initState now).g m.qnameConcepts
      = (((initState now).g.addAll (conceptTriples ca)).addAll (conceptTriples cb), some e) := by
    rw [hcon]
    rfl
  have hst1g : (stateAfterConcepts now m).g
      = ((initState now).g.addAll (conceptTriples ca)).addAll (conceptTriples cb) := by
    rw [stateAfterConcepts, translate_concepts_g, hrun]
  have hst1p : (stateAfterConcepts now m).printed = ["Error translating concepts: " ++ e] := by
    rw [stateAfterConcepts]
    simp only [translate_concepts]
    rw [hrun]
    rfl
  refine ⟨?_, ?_, ?_, ?_, ?_, ?_, ?_⟩
  · intro t ht1
    have hmem : t ∈ (stateAfterConcepts now m).g := by
      rw [hst1g]
      exact Graph.mem_addAll.mpr (Or.inl (Graph.mem_addAll.mpr (Or.inr ht1)))
    exact mem_final_of_afterContexts uuid now m (translate_contexts_mono _ _ hmem)
  · intro t ht2
    have hmem : t ∈ (stateAfterConcepts now m).g := by
      rw [hst1g]
      exact Graph.mem_addAll.mpr (Or.inr ht2)
    exact mem_final_of_afterContexts uuid now m (translate_contexts_mono _ _ hmem)
  · show (translate_taxonomy (stateAfterRels uuid now m) m.taxonomy).errors = []
    rw [htax, translate_taxonomy_none]
    exact errors_stateAfterRels uuid now m
  · have hp2 : (stateAfterContexts now m).printed
        = ["Error translating concepts: " ++ e] := by
      rw [stateAfterContexts, translate_contexts_printed_all_ok _ hctx, hst1p]
    have hp3 : (stateAfterFacts uuid now m).printed
        = ["Error translating concepts: " ++ e] := by
      rw [stateAfterFacts, translate_facts_printed_all_ok uuid _ hfacts, hp2]
    have hp4 : (stateAfterRels uuid now m).printed
        = ["Error translating concepts: " ++ e] := by
      rcases hrels with hnone | ⟨sets, hsets, hallr⟩
      · rw [stateAfterRels, hnone, translate_relationships_none, hp3]
      · rw [stateAfterRels, hsets, translate_relationships_printed_all_ok uuid _ hallr, hp3]
    show (translate_taxonomy (stateAfterRels uuid now m) m.taxonomy).printed
      = ["Error translating concepts: " ++ e]
    rw [htax, translate_taxonomy_none, hp4]
  · intro cid ctx hmemc
    have hcm : (cid, ctx) ∈ oksBefore m.contexts := mem_oksBefore_of_all_ok hctx hmemc
    have hmem2 : (⟨contextUri cid, rdf_type, nsGet xbrlNS "Context"⟩ : Triple)
        ∈ (stateAfterContexts now m).g := by
      rw [stateAfterContexts, translate_contexts_g]
      exact runContextItems_type_backward m.contexts hcm
    exact mem_final_of_afterContexts uuid now m hmem2
  · intro i f hidxf
    have hb := runFactItems_backward uuid m.facts
      (g := (stateAfterContexts now m).g) (u := 0)
      (b := (stateAfterContexts now m).bnodeCtr) hidxf
    rw [Nat.zero_add] at hb
    apply mem_final_of_afterFacts
    rw [stateAfterFacts, translate_facts_g, uuidCtr_stateAfterContexts]
    exact hb.1
  · intro sets arcrole ls linkrole rl r hsets hmem1 hmem2 hmemr
    rcases hrels with hnone | ⟨sets', hsets', hallr⟩
    · rw [hnone] at hsets
      cases hsets
    · rw [hsets'] at hsets
      obtain rfl := Option.some.inj hsets
      obtain ⟨u', hsub⟩ := runArcroleItems_backward uuid hallr hmem1 hmem2 hmemr
        (stateAfterFacts uuid now m).g (stateAfterFacts uuid now m).uuidCtr
      refine ⟨u', fun t ht => ?_⟩
      have hmem3 := hsub t ht
      have hrg : (stateAfterRels uuid now m).g
          = (runArcroleItems uuid (stateAfterFacts uuid now m).g
              (stateAfterFacts uuid now m).uuidCtr sets').1 := by
        rw [stateAfterRels, hsets', translate_relationships_some_g]
      show t ∈ (translate_taxonomy (stateAfterRels uuid now m) m.taxonomy).g
      rw [htax, translate_taxonomy_none, hrg]
      exact hmem3

/-- First concept processed before the C1 failure. -/
def c1ConceptA : Concept :=
  { qname := { namespaceURI := "http://fasb.org/us-gaap/2024", localName := "Assets" },
    label := none, type := none, periodType := none, balance := none,
    isAbstract := none, substitutionGroup := none }

/-- Second concept processed before the C1 failure. -/
def c1ConceptB : Concept :=
  { qname := { namespaceURI := "http://fasb.org/us-gaap/2024", localName := "Liabilities" },
    label := none, type := none, periodType := none, balance := none,
    isAbstract := none, substitutionGroup := none }

/-- A model whose concept iteration raises on the third item (for C1). -/
def c1FailModel : XBRLModel :=
  { qnameConcepts := [Except.ok c1ConceptA, Except.ok c1ConceptB, Except.error "boom"],
    contexts := [], facts := [], relationshipSets := none, taxonomy := none }

/-- C1 (counterexample to the original claim): with concept iteration
raising on the third item, the two processed concepts' triples are kept,
but the accumulated error list stays empty — no entry is appended for the
caught exception; it is only printed. -/
theorem c1_error_not_appended :
    (xbrl_to_rdf sampleUuid "2024-01-01T00:00:00" c1FailModel).errors = [] ∧
    (xbrl_to_rdf sampleUuid "2024-01-01T00:00:00" c1FailModel).printed
      = ["Error translating concepts: boom"] ∧
    (⟨conceptUri c1ConceptA, rdf_type, nsGet xbrlNS "Concept"⟩ : Triple)
      ∈ (xbrl_to_rdf sampleUuid "2024-01-01T00:00:00" c1FailModel).g ∧
    (⟨conceptUri c1ConceptB, rdf_type, nsGet xbrlNS "Concept"⟩ : Triple)
      ∈ (xbrl_to_rdf sampleUuid "2024-01-01T00:00:00" c1FailModel).g := by
  decide

theorem c1_pass_isolation_witness :
    (xbrl_to_rdf sampleUuid "2024-01-01T00:00:00" c1FailModel).errors = [] ∧
    (xbrl_to_rdf sampleUuid "2024-01-01T00:00:00" c1FailModel).printed
      = ["Error translating concepts: " ++ "boom"] :=
  ⟨(c1_pass_isolation sampleUuid "2024-01-01T00:00:00" c1FailModel c1ConceptA c1ConceptB
      "boom" [] rfl (fun x hx => absurd hx (List.not_mem_nil x))
      (fun x hx => absurd hx (List.not_mem_nil x)) (Or.inl rfl) rfl).2.2.1,
   (c1_pass_isolation sampleUuid "2024-01-01T00:00:00" c1FailModel c1ConceptA c1ConceptB
      "boom" [] rfl (fun x hx => absurd hx (List.not_mem_nil x))
      (fun x hx => absurd hx (List.not_mem_nil x)) (Or.inl rfl) rfl).2.2.2.1⟩

end XbrlRdf
